import Mathlib

/-!
Verification of the imp-scraper extraction/normalization core.

Python strings are modelled as `List Char` (`PyStr`); Python `Optional[T]`
as `Option T`; Python truthiness of a string is `s ≠ []` and of an
`Optional` it additionally requires the wrapped value to be truthy.
Every definition mirrors the corresponding Python function from the
repository source; where a Python standard-library helper is used by the
source (str.replace, str.strip, urllib.parse, re matching against one
concrete pattern), a faithful model of that helper's documented behaviour
on the relevant inputs is defined here, with the modelling caveats stated
in the doc comment of the model.
-/

/-- Python strings are sequences of characters. -/
abbrev PyStr := List Char

/-- Coerce a Lean string literal to the `List Char` model of Python strings. -/
def pstr (s : String) : PyStr := s.data

namespace Py

/-- Does `l` start with `p`?  (Model of Python `str.startswith`, and the
matching step of substring search.) -/
def startsWith : PyStr → PyStr → Bool
  | [], _ => true
  | _ :: _, [] => false
  | p :: ps, c :: cs => p = c && startsWith ps cs

/-- Model of the Python substring test (`needle in hay`). -/
def contains (needle : PyStr) : PyStr → Bool
  | [] => startsWith needle []
  | c :: cs => startsWith needle (c :: cs) || contains needle cs

/-- Recursion worker for `replace`.  Every step consumes at least one
character of the string, so running it with the string's length as fuel
computes the full left-to-right replacement; the fuel-zero case can only be
reached on the empty string, where it is the identity anyway. -/
def replaceGo (old new : PyStr) : Nat → PyStr → PyStr
  | _, [] => []
  | 0, l => l
  | fuel + 1, c :: cs =>
    match old with
    | [] => c :: cs
    | o :: os =>
      if startsWith (o :: os) (c :: cs) then
        new ++ replaceGo old new fuel (cs.drop os.length)
      else
        c :: replaceGo old new fuel cs

/-- Model of Python `str.replace(old, new)`: replaces every non-overlapping
occurrence of `old`, scanning left to right.  (Python's behaviour for an
empty `old` is irrelevant here: the source never calls replace with an
empty pattern, and the model returns the string unchanged in that case.) -/
def replace (old new l : PyStr) : PyStr :=
  replaceGo old new l.length l

/-- Python whitespace characters stripped by `str.strip()`. -/
def isSpace (c : Char) : Bool :=
  c = ' ' || c = '\t' || c = '\n' || c = '\r' || c = '\x0b' || c = '\x0c'

/-- Model of Python `str.strip()` (no arguments): removes leading and
trailing whitespace. -/
def strip (l : PyStr) : PyStr :=
  ((l.dropWhile isSpace).reverse.dropWhile isSpace).reverse

/-- Model of Python `str.lower()` for the ASCII strings this code handles. -/
def lower (l : PyStr) : PyStr := l.map Char.toLower

/-- Model of Python `str.upper()` for the ASCII strings this code handles. -/
def upper (l : PyStr) : PyStr := l.map Char.toUpper

/-- Model of Python string `<` (lexicographic comparison by code point). -/
def strLt : PyStr → PyStr → Bool
  | _, [] => false
  | [], _ :: _ => true
  | a :: as', b :: bs => a < b || (a = b && strLt as' bs)

/-- Truthiness of an optional Python string (`None` and `""` are falsy). -/
def truthy : Option PyStr → Bool
  | none => false
  | some s => s ≠ []

end Py

/-! ## models.py: ConfidenceLevel and the data models the claims touch -/

/-- ConfidenceLevel from models.py: a `str`-valued enum. -/
inductive ConfidenceLevel where
  | HIGH
  | MEDIUM
  | LOW
  | UNSURE
deriving DecidableEq, Repr

/-- The string value carried by each ConfidenceLevel member in models.py. -/
def ConfidenceLevel.value : ConfidenceLevel → PyStr
  | .HIGH => pstr "high"
  | .MEDIUM => pstr "medium"
  | .LOW => pstr "low"
  | .UNSURE => pstr "unsure"

/-- Python `max(a, b)` applied to two ConfidenceLevel members: since
ConfidenceLevel derives from `str`, the comparison is lexicographic on the
enum's string values. -/
def confMax (a b : ConfidenceLevel) : ConfidenceLevel :=
  if Py.strLt a.value b.value then b else a

/-- ExtractionStrategy from models.py (only the members the claims use). -/
inductive ExtractionStrategy where
  | CONTACT_PAGE
  | FOOTER
  | HEADER
deriving DecidableEq, Repr

/-- Hours from models.py: one optional string per weekday plus metadata. -/
structure Hours where
  monday : Option PyStr := none
  tuesday : Option PyStr := none
  wednesday : Option PyStr := none
  thursday : Option PyStr := none
  friday : Option PyStr := none
  saturday : Option PyStr := none
  sunday : Option PyStr := none
  source_url : Option PyStr := none
  confidence : ConfidenceLevel := .UNSURE
deriving DecidableEq, Repr

/-! ## services/normalizer_hours.py: HoursNormalizer.merge_hours -/

namespace HoursNormalizer

/-- The per-day selection of merge_hours:
`override.day if override.day and override.day != "Closed" else base.day`. -/
def mergeDay (b o : Option PyStr) : Option PyStr :=
  if Py.truthy o && o != some (pstr "Closed") then o else b

/-- HoursNormalizer.merge_hours from normalizer_hours.py.  The guard
`hasattr(ConfidenceLevel, 'HIGH')` in the source is always true, so the
confidence is always `max(override.confidence, base.confidence)`. -/
def merge_hours (base override : Hours) : Hours :=
  { monday := mergeDay base.monday override.monday
    tuesday := mergeDay base.tuesday override.tuesday
    wednesday := mergeDay base.wednesday override.wednesday
    thursday := mergeDay base.thursday override.thursday
    friday := mergeDay base.friday override.friday
    saturday := mergeDay base.saturday override.saturday
    sunday := mergeDay base.sunday override.sunday
    source_url := if Py.truthy override.source_url then override.source_url
                  else base.source_url
    confidence := confMax override.confidence base.confidence }

end HoursNormalizer

/-! ## services/county_census.py: county data model and suffix logic -/

/-- County from models.py. -/
structure County where
  name : Option PyStr := none
  label : Option PyStr := none
  full_name : Option PyStr := none
  source : Option PyStr := none
  verification_url : Option PyStr := none
  confidence : ConfidenceLevel := .UNSURE
deriving DecidableEq, Repr

/-- One entry of the "Counties" array in a Census Bureau geocoder response,
with the fields the parser reads; `dict.get(key, '')` lookups are modelled
by total string fields (a missing key is the empty string). -/
structure CountyRecord where
  NAME : PyStr := []
  STATE : PyStr := []
  COUNTY : PyStr := []
deriving DecidableEq, Repr

/-- The "geographies" object of a Census response: only its "Counties"
array is read. -/
structure CensusGeographies where
  Counties : List CountyRecord := []
deriving DecidableEq, Repr

/-- One entry of "addressMatches": only its "geographies" object is read. -/
structure CensusAddressMatch where
  geographies : CensusGeographies := {}
deriving DecidableEq, Repr

/-- The "result" object of a Census Bureau geocoder response, as navigated by
CensusBureauClient._parse_census_response: "addressMatches" (onelineaddress
endpoint) and "geographies" (coordinates endpoint). -/
structure CensusResult where
  addressMatches : List CensusAddressMatch := []
  geographies : CensusGeographies := {}
deriving DecidableEq, Repr

namespace CensusBureauClient

/-- The fixed set of Virginia independent-city names from
CensusBureauClient._determine_county_suffix. -/
def va_independent_cities : List PyStr :=
  [pstr "Alexandria", pstr "Bristol", pstr "Buena Vista", pstr "Charlottesville",
   pstr "Chesapeake", pstr "Colonial Heights", pstr "Covington", pstr "Danville",
   pstr "Emporia", pstr "Fairfax", pstr "Falls Church", pstr "Franklin",
   pstr "Fredericksburg", pstr "Galax", pstr "Hampton", pstr "Harrisonburg",
   pstr "Hopewell", pstr "Lexington", pstr "Lynchburg", pstr "Manassas",
   pstr "Manassas Park", pstr "Martinsville", pstr "Newport News", pstr "Norfolk",
   pstr "Norton", pstr "Petersburg", pstr "Poquoson", pstr "Portsmouth",
   pstr "Radford", pstr "Richmond", pstr "Roanoke", pstr "Salem", pstr "Staunton",
   pstr "Suffolk", pstr "Virginia Beach", pstr "Waynesboro", pstr "Williamsburg",
   pstr "Winchester"]

/-- CensusBureauClient._determine_county_suffix: LA uses Parish, AK uses
Borough, VA independent cities use Independent City, everything else County.
A falsy state (None or "") defaults to County; the state is uppercased
before comparison. -/
def determine_county_suffix (county_name : PyStr) (state : Option PyStr) : PyStr :=
  match state with
  | none => pstr "County"
  | some st0 =>
    if st0 = [] then pstr "County"
    else
      let st := Py.upper st0
      if st = pstr "LA" then pstr "Parish"
      else if st = pstr "AK" then pstr "Borough"
      else if st = pstr "VA" && va_independent_cities.contains county_name then
        pstr "Independent City"
      else pstr "County"

/-- The name-cleaning step of _parse_census_response:
`county_name.replace(' County', '').replace(' Parish', '').replace(' Borough', '')`
(note: Python replace removes every occurrence, not only a suffix). -/
def clean_county_name (county_name : PyStr) : PyStr :=
  Py.replace (pstr " Borough") []
    (Py.replace (pstr " Parish") [] (Py.replace (pstr " County") [] county_name))

/-- CensusBureauClient._build_verification_url (api_url is the client's
configured endpoint). -/
def build_verification_url (api_url : PyStr) (county_data : CountyRecord) : PyStr :=
  if county_data.STATE ≠ [] && county_data.COUNTY ≠ [] then
    pstr "https://www.census.gov/quickfacts/fact/table/"
      ++ county_data.STATE ++ county_data.COUNTY
  else api_url

/-- CensusBureauClient._parse_census_response: navigate to the first
addressMatches entry's geographies (or the result's own geographies), take
the first county record, clean its NAME, re-derive the jurisdiction suffix,
and build the County value at HIGH confidence.  (The logging calls and the
defensive try/except — unreachable for well-typed response data — are not
modelled.)  The "addressMatches"/"geographies" navigation: -/
def response_geographies (data : CensusResult) : CensusGeographies :=
  match data.addressMatches with
  | m :: _ => m.geographies
  | [] => data.geographies

/-- CensusBureauClient._parse_census_response, continued: take the first
county record of the selected geographies, clean its NAME, re-derive the
jurisdiction suffix, and build the County value at HIGH confidence. -/
def parse_census_response (api_url : PyStr) (data : CensusResult)
    (state : Option PyStr) : Option County :=
  match (response_geographies data).Counties with
  | [] => none
  | county_data :: _ =>
    let county_name := county_data.NAME
    if county_name = [] then none
    else
      let clean_name := clean_county_name county_name
      let suffix := determine_county_suffix clean_name state
      let full_name := clean_name ++ ' ' :: suffix
      some { name := some clean_name
             label := some suffix
             full_name := some full_name
             source := some (pstr "Census Bureau Geocoder")
             verification_url := some (build_verification_url api_url county_data)
             confidence := .HIGH }

end CensusBureauClient

namespace CountyLookupService

/-- Truthiness of an optional Python float (`None` and `0.0` are falsy);
coordinates are modelled as rationals. -/
def truthyNum : Option ℚ → Bool
  | none => false
  | some x => x ≠ 0

/-- CountyLookupService.lookup_county.  The two network-backed client calls
(lookup_county_by_address / lookup_county_by_coordinates) are passed in as
oracle functions taking exactly the arguments the source passes; the service
tries address lookup when street, city and state are all truthy, then
coordinate lookup when latitude and longitude are both truthy, and otherwise
returns the explicit Unsure county. -/
def lookup_county
    (by_address : PyStr → PyStr → PyStr → Option PyStr → Option County)
    (by_coordinates : ℚ → ℚ → Option PyStr → Option County)
    (street city state zip_code : Option PyStr)
    (latitude longitude : Option ℚ) : Option County :=
  let addressResult :=
    if Py.truthy street && Py.truthy city && Py.truthy state then
      by_address (street.getD []) (city.getD []) (state.getD []) zip_code
    else none
  match addressResult with
  | some county => some county
  | none =>
    let coordResult :=
      if truthyNum latitude && truthyNum longitude then
        by_coordinates (latitude.getD 0) (longitude.getD 0) state
      else none
    match coordResult with
    | some county => some county
    | none =>
      some { name := none
             label := none
             full_name := some (pstr "Unsure")
             source := some (pstr "Census lookup failed")
             verification_url := none
             confidence := .UNSURE }

end CountyLookupService

/-! ## checkpoint.py: CheckpointManager state machine -/

/-- CheckpointEntry from models.py; datetime values are modelled as natural
timestamps supplied by the caller (the source stamps `datetime.now()`). -/
structure CheckpointEntry where
  url : PyStr
  status : PyStr
  error : Option PyStr := none
  locations_found : Option Nat := none
  completed_at : Option Nat := none
  attempted_at : Option Nat := none
deriving DecidableEq, Repr

/-- Checkpoint from models.py. -/
structure Checkpoint where
  session_id : PyStr
  started : Nat
  completed : List CheckpointEntry := []
  failed : List CheckpointEntry := []
  pending : List PyStr := []
deriving DecidableEq, Repr

namespace CheckpointManager

/-- The fresh checkpoint built by CheckpointManager.__init__. -/
def init (session_id : PyStr) (now : Nat) : Checkpoint :=
  { session_id := session_id, started := now }

/-- CheckpointManager.get_completed_urls. -/
def get_completed_urls (cp : Checkpoint) : List PyStr :=
  cp.completed.map CheckpointEntry.url

/-- CheckpointManager.get_failed_urls. -/
def get_failed_urls (cp : Checkpoint) : List PyStr :=
  cp.failed.map CheckpointEntry.url

/-- CheckpointManager.mark_completed: append a success entry to completed,
then remove the url from pending if present.  The synchronous `save()` that
follows in the source is file I/O and does not change the in-memory state;
in this pure model the append and the removal are a single transition. -/
def mark_completed (cp : Checkpoint) (url : PyStr) (locations_found : Nat)
    (now : Nat) : Checkpoint :=
  let entry : CheckpointEntry :=
    { url := url, status := pstr "success"
      locations_found := some locations_found, completed_at := some now }
  let cp' := { cp with completed := cp.completed ++ [entry] }
  if url ∈ cp'.pending then { cp' with pending := cp'.pending.erase url } else cp'

/-- CheckpointManager.mark_failed: append a failed entry to failed, then
remove the url from pending if present. -/
def mark_failed (cp : Checkpoint) (url : PyStr) (error : PyStr)
    (now : Nat) : Checkpoint :=
  let entry : CheckpointEntry :=
    { url := url, status := pstr "failed"
      error := some error, attempted_at := some now }
  let cp' := { cp with failed := cp.failed ++ [entry] }
  if url ∈ cp'.pending then { cp' with pending := cp'.pending.erase url } else cp'

/-- One iteration of the add_pending loop: append the url unless it is
already in pending, completed or failed. -/
def add_pending_step (st : Checkpoint) (url : PyStr) : Checkpoint :=
  if url ∈ st.pending then st
  else
    let completed_urls := get_completed_urls st
    let failed_urls := get_failed_urls st
    if url ∈ completed_urls ∨ url ∈ failed_urls then st
    else { st with pending := st.pending ++ [url] }

/-- CheckpointManager.add_pending: append each url that is not already in
pending, completed or failed. -/
def add_pending (cp : Checkpoint) (urls : List PyStr) : Checkpoint :=
  urls.foldl add_pending_step cp

end CheckpointManager

/-- One call to the CheckpointManager mutators, with the wall-clock
timestamp the source would read from `datetime.now()` given explicitly. -/
inductive CheckpointOp where
  | add_pending (urls : List PyStr)
  | mark_completed (url : PyStr) (locations_found : Nat) (now : Nat)
  | mark_failed (url : PyStr) (error : PyStr) (now : Nat)
deriving DecidableEq, Repr

namespace CheckpointManager

/-- Apply one mutator call. -/
def step (cp : Checkpoint) : CheckpointOp → Checkpoint
  | .add_pending urls => add_pending cp urls
  | .mark_completed url locs now => mark_completed cp url locs now
  | .mark_failed url err now => mark_failed cp url err now

/-- Apply a whole call sequence, left to right. -/
def run (cp : Checkpoint) (ops : List CheckpointOp) : Checkpoint :=
  ops.foldl step cp

/-- A mark call is legal when its url is currently pending; add_pending
calls are always legal.  (This is the restriction under which the
checkpoint invariant of the spec actually holds; the source itself never
rejects an illegal call.) -/
def legalOp (cp : Checkpoint) : CheckpointOp → Bool
  | .add_pending _ => true
  | .mark_completed url _ _ => url ∈ cp.pending
  | .mark_failed url _ _ => url ∈ cp.pending

/-- Every call of the sequence is legal in the state it is applied to. -/
def legalRun (cp : Checkpoint) : List CheckpointOp → Bool
  | [] => true
  | op :: ops => legalOp cp op && legalRun (step cp op) ops

/-- Did some add_pending call of the sequence mention this url? -/
def wasAdded (u : PyStr) (ops : List CheckpointOp) : Bool :=
  ops.any fun op =>
    match op with
    | .add_pending urls => u ∈ urls
    | _ => false

/-- The three-list disjointness invariant plus freedom from duplicates. -/
def Inv (cp : Checkpoint) : Prop :=
  cp.pending.Nodup ∧ (get_completed_urls cp).Nodup ∧ (get_failed_urls cp).Nodup ∧
  (∀ u, u ∈ get_completed_urls cp → u ∉ get_failed_urls cp) ∧
  (∀ u, u ∈ get_completed_urls cp → u ∉ cp.pending) ∧
  (∀ u, u ∈ get_failed_urls cp → u ∉ cp.pending)

/-- Membership of a url in any of the three lists. -/
def Tracked (u : PyStr) (cp : Checkpoint) : Prop :=
  u ∈ get_completed_urls cp ∨ u ∈ get_failed_urls cp ∨ u ∈ cp.pending

end CheckpointManager

/-! ## utils/patterns.py: PHONE_PATTERN and its matching semantics

PHONE_PATTERN is the concrete regex
  \D*1?\D*(\d{3})\D*(\d{3})\D*(\d{4})\D*
from patterns.py.  Its Python matching semantics is modelled directly:
a match attempt first lets the leading \D* skip to the first digit; if that
digit is '1' the optional 1? greedily consumes it (falling back to leaving
it when the remainder of the pattern fails, exactly the backtracking the
engine performs — the \D* pieces can consume only non-digits, so their
extents are otherwise forced); each group needs its count of consecutive
digits after skipping separators; the trailing \D* extends the match to the
next digit or the end.  `\d` is modelled as the ASCII digit test (Python
also accepts non-ASCII decimal digits in str patterns).  `findall` tries
each start position left to right and resumes after each match; attempts
starting inside a run of non-digits coincide with the attempt at the first
following digit, which the leading skip performs directly. -/

namespace PhonePattern

/-- Take exactly `n` leading digit characters, or fail. -/
def takeDigits : Nat → PyStr → Option (PyStr × PyStr)
  | 0, l => some ([], l)
  | _ + 1, [] => none
  | n + 1, c :: cs =>
    if c.isDigit then
      match takeDigits n cs with
      | some (d, r) => some (c :: d, r)
      | none => none
    else none

/-- Match `(\d{3})\D*(\d{3})\D*(\d{4})\D*` at the start of `l` (which the
caller has already positioned on a digit); returns the three groups and the
remainder after the trailing `\D*`. -/
def matchRest (l : PyStr) : Option ((PyStr × PyStr × PyStr) × PyStr) :=
  match takeDigits 3 l with
  | none => none
  | some (g1, r1) =>
    match takeDigits 3 (r1.dropWhile (fun c => !c.isDigit)) with
    | none => none
    | some (g2, r2) =>
      match takeDigits 4 (r2.dropWhile (fun c => !c.isDigit)) with
      | none => none
      | some (g3, r3) => some ((g1, g2, g3), r3.dropWhile (fun c => !c.isDigit))

/-- One anchored match attempt of PHONE_PATTERN (the semantics of
`PHONE_PATTERN.match`): skip non-digits, try consuming an optional leading
'1', and match the three groups. -/
def tryMatch (l : PyStr) : Option ((PyStr × PyStr × PyStr) × PyStr) :=
  match l.dropWhile (fun c => !c.isDigit) with
  | [] => none
  | c :: rest =>
    if c = '1' then
      match matchRest (rest.dropWhile (fun c => !c.isDigit)) with
      | some r => some r
      | none => matchRest (c :: rest)
    else matchRest (c :: rest)

/-- Scan worker for findall; every iteration consumes at least one
character, so the string's length is enough fuel. -/
def findallGo : Nat → PyStr → List (PyStr × PyStr × PyStr)
  | 0, _ => []
  | fuel + 1, l =>
    match tryMatch l with
    | some (g, rest) => g :: findallGo fuel rest
    | none =>
      match l with
      | [] => []
      | _ :: t => findallGo fuel t

/-- The semantics of `PHONE_PATTERN.findall`: all non-overlapping matches,
left to right, each reported as its tuple of groups. -/
def findall (l : PyStr) : List (PyStr × PyStr × PyStr) := findallGo l.length l

end PhonePattern

/-! ## extractors/phone.py and utils/validators.py: phone candidates -/

namespace PhoneExtractor

/-- PhoneExtractor._find_phone_numbers: join each findall tuple and keep
candidates with at least 10 characters whose first three characters are not
"000", "111" or "555". -/
def find_phone_numbers (text : PyStr) : List PyStr :=
  ((PhonePattern.findall text).map (fun m => m.1 ++ m.2.1 ++ m.2.2)).filter
    (fun phone =>
      decide (10 ≤ phone.length) &&
      !([pstr "000", pstr "111", pstr "555"].contains (phone.take 3)))

end PhoneExtractor

namespace PhoneValidator

/-- PhoneValidator.extract_digits: anchored match of PHONE_PATTERN, joining
the three groups; None for a falsy input or a failed match. -/
def extract_digits (phone : PyStr) : Option PyStr :=
  if phone = [] then none
  else
    match PhonePattern.tryMatch phone with
    | some (g, _) => some (g.1 ++ g.2.1 ++ g.2.2)
    | none => none

/-- PhoneValidator.validate_phone: the extraction must yield 10 digits. -/
def validate_phone (phone : PyStr) : Bool :=
  if phone = [] then false
  else
    match extract_digits phone with
    | some d => d.length == 10
    | none => false

/-- The "(XXX) XXX-XXXX" shape built by format_pretty from a digit string. -/
def prettyShape (d : PyStr) : PyStr :=
  '(' :: d.take 3 ++ ')' :: ' ' :: (d.drop 3).take 3 ++ '-' :: d.drop 6

/-- PhoneValidator.format_pretty. -/
def format_pretty (phone : PyStr) : Option PyStr :=
  match extract_digits phone with
  | some d => if d = [] ∨ d.length ≠ 10 then none else some (prettyShape d)
  | none => none

/-- PhoneValidator.format_digits_only. -/
def format_digits_only (phone : PyStr) : Option PyStr :=
  match extract_digits phone with
  | some d => if d = [] ∨ d.length ≠ 10 then none else some d
  | none => none

end PhoneValidator

/-! ## services/normalizer_phone.py: PhoneNormalizer -/

/-- Phone from models.py. -/
structure Phone where
  raw : Option PyStr := none
  pretty : Option PyStr := none
  digits : Option PyStr := none
  source : Option ExtractionStrategy := none
  confidence : ConfidenceLevel := .UNSURE
deriving DecidableEq, Repr

namespace PhoneNormalizer

/-- PhoneNormalizer.normalize. -/
def normalize (raw_phone : PyStr) (source : Option ExtractionStrategy) :
    Option Phone :=
  if raw_phone = [] then none
  else if !PhoneValidator.validate_phone raw_phone then
    some { raw := some raw_phone, pretty := none, digits := none
           source := source, confidence := .UNSURE }
  else
    let pretty := PhoneValidator.format_pretty raw_phone
    let digits := PhoneValidator.format_digits_only raw_phone
    if !Py.truthy pretty || !Py.truthy digits then
      some { raw := some raw_phone, pretty := none, digits := none
             source := source, confidence := .LOW }
    else
      some { raw := some raw_phone, pretty := pretty, digits := digits
             source := source, confidence := .HIGH }

/-- The loop of normalize_multiple: return the first result that exists and
is not UNSURE. -/
def normalize_multiple_go (source : Option ExtractionStrategy) :
    List PyStr → Option Phone
  | [] => none
  | p :: rest =>
    match normalize p source with
    | some r =>
      if r.confidence ≠ .UNSURE then some r else normalize_multiple_go source rest
    | none => normalize_multiple_go source rest

/-- PhoneNormalizer.normalize_multiple: first successful normalization, else
an UNSURE placeholder carrying the first input, else None on an empty
list. -/
def normalize_multiple (phones : List PyStr)
    (source : Option ExtractionStrategy) : Option Phone :=
  match normalize_multiple_go source phones with
  | some r => some r
  | none =>
    match phones with
    | [] => none
    | p0 :: _ =>
      some { raw := some p0, pretty := none, digits := none
             source := source, confidence := .UNSURE }

/-- Does this input normalize successfully (present and not UNSURE)?  Used
to state which element normalize_multiple picks. -/
def succeeds (source : Option ExtractionStrategy) (p : PyStr) : Bool :=
  match normalize p source with
  | some r => r.confidence != .UNSURE
  | none => false

end PhoneNormalizer

/-! ## urllib.parse model for services/normalizer_url.py

URLNormalizer.normalize is built on urlparse, parse_qs, urlencode and
urlunparse from Python's urllib.parse.  The subset of their documented
behaviour that normalize exercises is modelled here:

* urlparse: scheme detection (a leading run of scheme characters starting
  with a letter, before the first ':'), "//"-introduced netloc delimited by
  '/', '?' or '#', fragment split at the first '#', query split at the
  first '?'.  The params component (a ';' in the last path segment) is
  folded into the path: urlunparse re-joins path and params with ';', so
  keeping them joined is observationally equivalent for normalize, whose
  only other use of the path is an emptiness test that a ';' cannot
  affect.  CPython additionally strips tab/CR/LF and leading-control
  bytes and raises ValueError for '['/']' netloc issues and certain
  non-ASCII netlocs; this model is total and character-preserving, and is
  compared with the source only on URLNormalizer.NormalizableUrl inputs
  (printable bracket-free ASCII), where CPython neither strips nor
  raises.
* parse_qs/parse_qsl with default arguments: fields split on '&', each
  split at its first '='; fields without '=' and fields with an empty
  value are dropped.  Percent-decoding and '+'-decoding are modelled as the
  identity.
* urlencode with doseq=True over the parsed dict, quoting modelled as the
  identity likewise.  Identity de/re-quoting is faithful exactly when
  every parsed key and value uses only quote_plus-safe characters
  (alphanumerics and '_', '.', '~', '-'); the NormalizableUrl query
  condition guarantees this.
* urlunsplit/urlunparse: the documented reassembly, including the "//"
  guard for a path beginning with "//" when the netloc is empty. -/

namespace UrlLib

/-- Characters allowed in a URL scheme (after the leading letter). -/
def scheme_char (c : Char) : Bool :=
  c.isAlphanum || c = '+' || c = '-' || c = '.'

/-- Split at the first occurrence of `sep` (Python `str.split(sep, 1)` when
it succeeds, `str.find` failure as none). -/
def splitOnce (sep : Char) : PyStr → Option (PyStr × PyStr)
  | [] => none
  | c :: cs =>
    if c = sep then some ([], cs)
    else
      match splitOnce sep cs with
      | some (a, b) => some (c :: a, b)
      | none => none

/-- Split at every occurrence of `sep` (Python `str.split(sep)`). -/
def splitAll (sep : Char) : PyStr → List PyStr
  | [] => [[]]
  | c :: cs =>
    if c = sep then [] :: splitAll sep cs
    else
      match splitAll sep cs with
      | [] => [[c]]
      | a :: rest => (c :: a) :: rest

/-- Join with a single-character separator (Python `sep.join`). -/
def joinChar (sep : Char) : List PyStr → PyStr
  | [] => []
  | [x] => x
  | x :: y :: rest => x ++ sep :: joinChar sep (y :: rest)

/-- Is this character a netloc delimiter ('/', '?' or '#')? -/
def netlocDelim (c : Char) : Bool :=
  c = '/' || c = '?' || c = '#'

/-- The result of urlparse (params folded into path, see above). -/
structure ParseResult where
  scheme : PyStr := []
  netloc : PyStr := []
  path : PyStr := []
  params : PyStr := []
  query : PyStr := []
  fragment : PyStr := []
deriving DecidableEq, Repr

/-- Scheme detection of urlparse: a run of scheme characters starting with
a letter before the first ':' is the (lowercased) scheme. -/
def splitScheme (url : PyStr) : PyStr × PyStr :=
  match splitOnce ':' url with
  | some (before, after) =>
    match before with
    | [] => ([], url)
    | c :: cs =>
      if c.isAlpha && cs.all scheme_char then (Py.lower (c :: cs), after)
      else ([], url)
  | none => ([], url)

/-- Netloc detection of urlparse: after "//", up to the next delimiter. -/
def splitNetloc (rest : PyStr) : PyStr × PyStr :=
  match rest with
  | '/' :: '/' :: r =>
    (r.takeWhile fun c => !netlocDelim c, r.dropWhile fun c => !netlocDelim c)
  | _ => ([], rest)

/-- Fragment split of urlparse: at the first '#'. -/
def splitFragment (rest : PyStr) : PyStr × PyStr :=
  match splitOnce '#' rest with
  | some (a, b) => (a, b)
  | none => (rest, [])

/-- Query split of urlparse: at the first '?'. -/
def splitQuery (rest : PyStr) : PyStr × PyStr :=
  match splitOnce '?' rest with
  | some (a, b) => (a, b)
  | none => (rest, [])

/-- Model of urllib.parse.urlparse (see the section comment for the
modelled subset). -/
def urlparse (url : PyStr) : ParseResult :=
  let schemeSplit := splitScheme url
  let netlocSplit := splitNetloc schemeSplit.2
  let fragSplit := splitFragment netlocSplit.2
  let querySplit := splitQuery fragSplit.1
  { scheme := schemeSplit.1, netloc := netlocSplit.1, path := querySplit.1
    params := [], query := querySplit.2, fragment := fragSplit.2 }

/-- Model of urllib.parse.urlunsplit. -/
def urlunsplit (scheme netloc path query fragment : PyStr) : PyStr :=
  let url := path
  let url :=
    if netloc ≠ [] ∨ Py.startsWith (pstr "//") url then
      pstr "//" ++ netloc ++
        (if url ≠ [] && !Py.startsWith (pstr "/") url then '/' :: url else url)
    else url
  let url := if scheme ≠ [] then scheme ++ ':' :: url else url
  let url := if query ≠ [] then url ++ '?' :: query else url
  let url := if fragment ≠ [] then url ++ '#' :: fragment else url
  url

/-- Model of urllib.parse.urlunparse. -/
def urlunparse (scheme netloc path params query fragment : PyStr) : PyStr :=
  urlunsplit scheme netloc
    (if params ≠ [] then path ++ ';' :: params else path) query fragment

/-- Model of urllib.parse.parse_qsl with default arguments (see the section
comment): split on '&', keep fields with an '=' and a non-empty value. -/
def parse_qsl (qs : PyStr) : List (PyStr × PyStr) :=
  (splitAll '&' qs).filterMap fun pair =>
    if pair = [] then none
    else
      match splitOnce '=' pair with
      | none => none
      | some (n, v) => if v = [] then none else some (n, v)

/-- One insertion into the ordered dict built by parse_qs: append the value
to an existing key's list, or append a fresh key at the end. -/
def insertPair (d : List (PyStr × List PyStr)) (kv : PyStr × PyStr) :
    List (PyStr × List PyStr) :=
  match d with
  | [] => [(kv.1, [kv.2])]
  | (k, vs) :: rest =>
    if k = kv.1 then (k, vs ++ [kv.2]) :: rest
    else (k, vs) :: insertPair rest kv

/-- Model of urllib.parse.parse_qs: group the parsed pairs by key in
first-occurrence order. -/
def parse_qs (qs : PyStr) : List (PyStr × List PyStr) :=
  (parse_qsl qs).foldl insertPair []

/-- Model of urllib.parse.urlencode with doseq=True (quoting modelled as
the identity, see the section comment). -/
def urlencode (d : List (PyStr × List PyStr)) : PyStr :=
  joinChar '&' ((d.map fun kv => kv.2.map fun v => kv.1 ++ '=' :: v).flatten)

end UrlLib

/-! ## services/normalizer_url.py: URLNormalizer -/

namespace URLNormalizer

/-- URLNormalizer.TRACKING_PARAMS from normalizer_url.py. -/
def TRACKING_PARAMS : List PyStr :=
  [pstr "utm_source", pstr "utm_medium", pstr "utm_campaign", pstr "utm_term",
   pstr "utm_content", pstr "gclid", pstr "fbclid", pstr "mc_cid",
   pstr "mc_eid", pstr "_ga", pstr "_gl", pstr "_gac", pstr "msclkid",
   pstr "twclid", pstr "_kx"]

/-- The query-rebuilding step of normalize: parse the query, drop the
tracking keys, re-encode, with an empty string when nothing is left. -/
def cleanQuery (query : PyStr) : PyStr :=
  let query_params := UrlLib.parse_qs query
  let clean_params := query_params.filter fun kv => !TRACKING_PARAMS.contains kv.1
  if clean_params ≠ [] then UrlLib.urlencode clean_params else []

/-- URLNormalizer.normalize from normalizer_url.py.  The source wraps the
body in try/except and returns the URL unchanged when parsing raises;
CPython's urlparse raises only for inputs whose netloc involves '[' or ']'
or certain non-ASCII characters.  This model is total and is compared with
the source only on the NormalizableUrl domain below, where that branch is
unreachable. -/
def normalize (url : PyStr) (force_https : Bool := true)
    (remove_tracking : Bool := true) : PyStr :=
  if url = [] then url
  else
    let parsed := UrlLib.urlparse url
    let scheme0 := if force_https then pstr "https" else parsed.scheme
    let scheme := if scheme0 = [] then pstr "https" else scheme0
    let query := if remove_tracking then cleanQuery parsed.query else parsed.query
    let path := if parsed.path = [] then pstr "/" else parsed.path
    UrlLib.urlunparse scheme parsed.netloc path parsed.params query []

end URLNormalizer

namespace UrlLib

end UrlLib

namespace HoursNormalizer

/-- The space-collapsing while loop of normalize_time_range.  The loop runs
while "  " occurs; each replace pass shortens the string, so the string's
length bounds the number of iterations and is used as fuel. -/
def collapseSpaces : Nat → PyStr → PyStr
  | 0, l => l
  | fuel + 1, l =>
    if Py.contains (pstr "  ") l then
      collapseSpaces fuel (Py.replace (pstr "  ") (pstr " ") l)
    else l

/-- HoursNormalizer.normalize_time_range from normalizer_hours.py: empty
input gives "Closed"; after stripping, a case-insensitive "closed" or
"by appointment" gives "Closed" and "24" with "hour" gives "Open 24 hours";
otherwise " - " and " — " become " – ", remaining hyphens become en dashes,
en dashes get spaced, space runs are collapsed, and the result is
stripped. -/
def normalize_time_range (time_str : PyStr) : PyStr :=
  if time_str = [] then pstr "Closed"
  else
    let normalized := Py.strip time_str
    let lower := Py.lower normalized
    if Py.contains (pstr "closed") lower ||
        Py.contains (pstr "by appointment") lower then
      pstr "Closed"
    else if Py.contains (pstr "24") lower && Py.contains (pstr "hour") lower
        then
      pstr "Open 24 hours"
    else
      let n1 := Py.replace (pstr " - ") (pstr " – ") normalized
      let n2 := Py.replace (pstr " — ") (pstr " – ") n1
      let n3 := Py.replace (pstr "-") (pstr "–") n2
      let n4 := Py.replace (pstr "–") (pstr " – ") n3
      Py.strip (collapseSpaces n4.length n4)

/-- An already-normalized time range "t1 – t2": non-empty halves with no
leading/trailing whitespace, no double spaces, no space at the join, no
hyphen or dash characters of their own, and a combined text that triggers
none of the special cases. -/
abbrev NormalizedRange (t1 t2 : PyStr) : Prop :=
  t1 ≠ [] ∧ t2 ≠ [] ∧
  (t1.head?.all fun c => !Py.isSpace c) = true ∧
  (t2.getLast?.all fun c => !Py.isSpace c) = true ∧
  t1.getLast? ≠ some ' ' ∧
  t2.head? ≠ some ' ' ∧
  Py.contains (pstr "  ") t1 = false ∧
  Py.contains (pstr "  ") t2 = false ∧
  ('-' : Char) ∉ t1 ++ t2 ∧
  ('–' : Char) ∉ t1 ++ t2 ∧
  ('—' : Char) ∉ t1 ++ t2 ∧
  Py.contains (pstr "closed") (Py.lower (t1 ++ pstr " – " ++ t2)) = false ∧
  Py.contains (pstr "by appointment")
    (Py.lower (t1 ++ pstr " – " ++ t2)) = false ∧
  (Py.contains (pstr "24") (Py.lower (t1 ++ pstr " – " ++ t2)) = false ∨
    Py.contains (pstr "hour") (Py.lower (t1 ++ pstr " – " ++ t2)) = false)

end HoursNormalizer

/-! ## Helper lemmas -/

/-- The per-day merge rule, spelled out for both directions of the choice. -/
theorem mergeDay_spec (b o : Option PyStr) :
    ((o = none ∨ o = some [] ∨ o = some (pstr "Closed")) →
      HoursNormalizer.mergeDay b o = b) ∧
    (∀ v, o = some v → v ≠ [] → v ≠ pstr "Closed" →
      HoursNormalizer.mergeDay b o = some v) := by
  constructor
  · intro h
    rcases h with h | h | h <;> subst h <;> simp [HoursNormalizer.mergeDay, Py.truthy]
  · intro v hv hne hcl
    subst hv
    simp [HoursNormalizer.mergeDay, Py.truthy, hne, hcl]

namespace CheckpointManager

/-- Component description of mark_completed. -/
theorem mark_completed_spec (cp : Checkpoint) (url : PyStr) (locs t : Nat) :
    get_completed_urls (mark_completed cp url locs t) = get_completed_urls cp ++ [url] ∧
    get_failed_urls (mark_completed cp url locs t) = get_failed_urls cp ∧
    (mark_completed cp url locs t).pending
      = if url ∈ cp.pending then cp.pending.erase url else cp.pending := by
  unfold mark_completed
  by_cases h : url ∈ cp.pending <;> simp [h, get_completed_urls, get_failed_urls]

/-- Component description of mark_failed. -/
theorem mark_failed_spec (cp : Checkpoint) (url err : PyStr) (t : Nat) :
    get_completed_urls (mark_failed cp url err t) = get_completed_urls cp ∧
    get_failed_urls (mark_failed cp url err t) = get_failed_urls cp ++ [url] ∧
    (mark_failed cp url err t).pending
      = if url ∈ cp.pending then cp.pending.erase url else cp.pending := by
  unfold mark_failed
  by_cases h : url ∈ cp.pending <;> simp [h, get_completed_urls, get_failed_urls]

/-- Component description of one add_pending iteration. -/
theorem add_pending_step_spec (st : Checkpoint) (url : PyStr) :
    get_completed_urls (add_pending_step st url) = get_completed_urls st ∧
    get_failed_urls (add_pending_step st url) = get_failed_urls st ∧
    (add_pending_step st url).pending
      = if url ∈ st.pending ∨ url ∈ get_completed_urls st ∨ url ∈ get_failed_urls st
        then st.pending else st.pending ++ [url] := by
  unfold add_pending_step
  by_cases h1 : url ∈ st.pending
  · rw [if_pos h1, if_pos (Or.inl h1)]
    exact ⟨rfl, rfl, rfl⟩
  · rw [if_neg h1]
    dsimp only
    by_cases h2 : url ∈ get_completed_urls st ∨ url ∈ get_failed_urls st
    · rw [if_pos h2, if_pos (Or.inr h2)]
      exact ⟨rfl, rfl, rfl⟩
    · rw [if_neg h2, if_neg (fun hh => hh.elim h1 h2)]
      exact ⟨rfl, rfl, rfl⟩

/-- One add_pending iteration preserves the disjointness invariant. -/
theorem add_pending_step_inv {cp : Checkpoint} (url : PyStr) (h : Inv cp) :
    Inv (add_pending_step cp url) := by
  obtain ⟨hp, hc, hf, hcf, hcp, hfp⟩ := h
  obtain ⟨eC, eF, eP⟩ := add_pending_step_spec cp url
  by_cases hmem : url ∈ cp.pending ∨ url ∈ get_completed_urls cp ∨
      url ∈ get_failed_urls cp
  · rw [if_pos hmem] at eP
    refine ⟨?_, ?_, ?_, ?_, ?_, ?_⟩
    · rw [eP]; exact hp
    · rw [eC]; exact hc
    · rw [eF]; exact hf
    · intro u; rw [eC, eF]; exact hcf u
    · intro u; rw [eC, eP]; exact hcp u
    · intro u; rw [eF, eP]; exact hfp u
  · rw [if_neg hmem] at eP
    have h1 : url ∉ cp.pending := fun hh => hmem (Or.inl hh)
    have h2 : url ∉ get_completed_urls cp := fun hh => hmem (Or.inr (Or.inl hh))
    have h3 : url ∉ get_failed_urls cp := fun hh => hmem (Or.inr (Or.inr hh))
    refine ⟨?_, ?_, ?_, ?_, ?_, ?_⟩
    · rw [eP, List.nodup_append]
      exact ⟨hp, List.nodup_singleton _,
        fun a ha hb => h1 ((List.mem_singleton.mp hb) ▸ ha)⟩
    · rw [eC]; exact hc
    · rw [eF]; exact hf
    · intro u; rw [eC, eF]; exact hcf u
    · intro u hu
      rw [eC] at hu
      rw [eP, List.mem_append, List.mem_singleton]
      rintro (hin | rfl)
      · exact hcp u hu hin
      · exact h2 hu
    · intro u hu
      rw [eF] at hu
      rw [eP, List.mem_append, List.mem_singleton]
      rintro (hin | rfl)
      · exact hfp u hu hin
      · exact h3 hu

/-- One add_pending iteration keeps every tracked url tracked. -/
theorem add_pending_step_tracked {cp : Checkpoint} {u : PyStr} (url : PyStr)
    (h : Tracked u cp) : Tracked u (add_pending_step cp url) := by
  obtain ⟨eC, eF, eP⟩ := add_pending_step_spec cp url
  unfold Tracked
  rw [eC, eF, eP]
  rcases h with h | h | h
  · exact Or.inl h
  · exact Or.inr (Or.inl h)
  · refine Or.inr (Or.inr ?_)
    split
    · exact h
    · exact List.mem_append_left _ h

/-- add_pending preserves the invariant. -/
theorem add_pending_inv (urls : List PyStr) :
    ∀ {cp : Checkpoint}, Inv cp → Inv (add_pending cp urls) := by
  induction urls with
  | nil => intro cp h; exact h
  | cons v rest ih =>
    intro cp h
    show Inv (List.foldl add_pending_step (add_pending_step cp v) rest)
    exact ih (add_pending_step_inv v h)

/-- add_pending keeps every tracked url tracked. -/
theorem add_pending_tracked (urls : List PyStr) :
    ∀ {cp : Checkpoint} {u : PyStr}, Tracked u cp → Tracked u (add_pending cp urls) := by
  induction urls with
  | nil => intro cp u h; exact h
  | cons v rest ih =>
    intro cp u h
    show Tracked u (List.foldl add_pending_step (add_pending_step cp v) rest)
    exact ih (add_pending_step_tracked v h)

/-- Every url passed to add_pending is tracked afterwards. -/
theorem add_pending_mem_tracked (urls : List PyStr) :
    ∀ {cp : Checkpoint} {u : PyStr}, u ∈ urls → Tracked u (add_pending cp urls) := by
  induction urls with
  | nil => intro cp u h; cases h
  | cons v rest ih =>
    intro cp u h
    show Tracked u (List.foldl add_pending_step (add_pending_step cp v) rest)
    rcases List.mem_cons.mp h with rfl | h
    · refine add_pending_tracked rest ?_
      obtain ⟨eC, eF, eP⟩ := add_pending_step_spec cp u
      unfold Tracked
      rw [eC, eF, eP]
      by_cases hmem : u ∈ cp.pending ∨ u ∈ get_completed_urls cp ∨
          u ∈ get_failed_urls cp
      · rw [if_pos hmem]
        rcases hmem with hh | hh | hh
        · exact Or.inr (Or.inr hh)
        · exact Or.inl hh
        · exact Or.inr (Or.inl hh)
      · rw [if_neg hmem]
        exact Or.inr (Or.inr (List.mem_append_right _ (List.mem_singleton.mpr rfl)))
    · exact ih h

/-- mark_completed on a pending url preserves the invariant. -/
theorem mark_completed_inv {cp : Checkpoint} {url : PyStr} (locs t : Nat)
    (h : Inv cp) (hu : url ∈ cp.pending) : Inv (mark_completed cp url locs t) := by
  obtain ⟨hp, hc, hf, hcf, hcp, hfp⟩ := h
  obtain ⟨eC, eF, eP⟩ := mark_completed_spec cp url locs t
  rw [if_pos hu] at eP
  refine ⟨?_, ?_, ?_, ?_, ?_, ?_⟩
  · rw [eP]; exact hp.erase url
  · rw [eC, List.nodup_append]
    exact ⟨hc, List.nodup_singleton _,
      fun a ha hb => (hcp a ha) ((List.mem_singleton.mp hb) ▸ hu)⟩
  · rw [eF]; exact hf
  · intro u hu'
    rw [eC, List.mem_append, List.mem_singleton] at hu'
    rw [eF]
    rcases hu' with hin | rfl
    · exact hcf u hin
    · exact fun hinF => (hfp u hinF) hu
  · intro u hu'
    rw [eC, List.mem_append, List.mem_singleton] at hu'
    rw [eP]
    rcases hu' with hin | rfl
    · exact fun hmem => (hcp u hin) (List.mem_of_mem_erase hmem)
    · exact fun hmem => ((hp.mem_erase_iff).mp hmem).1 rfl
  · intro u hu'
    rw [eF] at hu'
    rw [eP]
    exact fun hmem => (hfp u hu') (List.mem_of_mem_erase hmem)

/-- mark_failed on a pending url preserves the invariant. -/
theorem mark_failed_inv {cp : Checkpoint} {url : PyStr} (err : PyStr) (t : Nat)
    (h : Inv cp) (hu : url ∈ cp.pending) : Inv (mark_failed cp url err t) := by
  obtain ⟨hp, hc, hf, hcf, hcp, hfp⟩ := h
  obtain ⟨eC, eF, eP⟩ := mark_failed_spec cp url err t
  rw [if_pos hu] at eP
  refine ⟨?_, ?_, ?_, ?_, ?_, ?_⟩
  · rw [eP]; exact hp.erase url
  · rw [eC]; exact hc
  · rw [eF, List.nodup_append]
    exact ⟨hf, List.nodup_singleton _,
      fun a ha hb => (hfp a ha) ((List.mem_singleton.mp hb) ▸ hu)⟩
  · intro u hu'
    rw [eC] at hu'
    rw [eF, List.mem_append, List.mem_singleton]
    rintro (hin | rfl)
    · exact hcf u hu' hin
    · exact (hcp u hu') hu
  · intro u hu'
    rw [eC] at hu'
    rw [eP]
    exact fun hmem => (hcp u hu') (List.mem_of_mem_erase hmem)
  · intro u hu'
    rw [eF, List.mem_append, List.mem_singleton] at hu'
    rw [eP]
    rcases hu' with hin | rfl
    · exact fun hmem => (hfp u hin) (List.mem_of_mem_erase hmem)
    · exact fun hmem => ((hp.mem_erase_iff).mp hmem).1 rfl

/-- mark_completed keeps every tracked url tracked (no legality needed). -/
theorem mark_completed_tracked {cp : Checkpoint} {u : PyStr} (url : PyStr)
    (locs t : Nat) (h : Tracked u cp) : Tracked u (mark_completed cp url locs t) := by
  obtain ⟨eC, eF, eP⟩ := mark_completed_spec cp url locs t
  unfold Tracked
  rw [eC, eF, eP]
  rcases h with h | h | h
  · exact Or.inl (List.mem_append_left _ h)
  · exact Or.inr (Or.inl h)
  · by_cases hequ : u = url
    · subst hequ
      exact Or.inl (List.mem_append_right _ (List.mem_singleton.mpr rfl))
    · refine Or.inr (Or.inr ?_)
      split
      · exact (List.mem_erase_of_ne hequ).mpr h
      · exact h

/-- mark_failed keeps every tracked url tracked (no legality needed). -/
theorem mark_failed_tracked {cp : Checkpoint} {u : PyStr} (url err : PyStr)
    (t : Nat) (h : Tracked u cp) : Tracked u (mark_failed cp url err t) := by
  obtain ⟨eC, eF, eP⟩ := mark_failed_spec cp url err t
  unfold Tracked
  rw [eC, eF, eP]
  rcases h with h | h | h
  · exact Or.inl h
  · exact Or.inr (Or.inl (List.mem_append_left _ h))
  · by_cases hequ : u = url
    · subst hequ
      exact Or.inr (Or.inl (List.mem_append_right _ (List.mem_singleton.mpr rfl)))
    · refine Or.inr (Or.inr ?_)
      split
      · exact (List.mem_erase_of_ne hequ).mpr h
      · exact h

/-- One legal step preserves the invariant. -/
theorem step_inv {cp : Checkpoint} {op : CheckpointOp} (h : Inv cp)
    (hleg : legalOp cp op = true) : Inv (step cp op) := by
  cases op with
  | add_pending urls => exact add_pending_inv urls h
  | mark_completed url locs t =>
    exact mark_completed_inv locs t h (by simpa [legalOp] using hleg)
  | mark_failed url err t =>
    exact mark_failed_inv err t h (by simpa [legalOp] using hleg)

/-- Any step keeps tracked urls tracked. -/
theorem step_tracked {cp : Checkpoint} {u : PyStr} (op : CheckpointOp)
    (h : Tracked u cp) : Tracked u (step cp op) := by
  cases op with
  | add_pending urls => exact add_pending_tracked urls h
  | mark_completed url locs t => exact mark_completed_tracked url locs t h
  | mark_failed url err t => exact mark_failed_tracked url err t h

/-- A legal run preserves the invariant. -/
theorem run_inv : ∀ (ops : List CheckpointOp) {cp : Checkpoint}, Inv cp →
    legalRun cp ops = true → Inv (run cp ops) := by
  intro ops
  induction ops with
  | nil => intro cp h _; exact h
  | cons op rest ih =>
    intro cp h hleg
    rw [legalRun, Bool.and_eq_true] at hleg
    show Inv (List.foldl step (step cp op) rest)
    exact ih (step_inv h hleg.1) hleg.2

/-- A run keeps tracked urls tracked. -/
theorem run_tracked : ∀ (ops : List CheckpointOp) {cp : Checkpoint} {u : PyStr},
    Tracked u cp → Tracked u (run cp ops) := by
  intro ops
  induction ops with
  | nil => intro cp u h; exact h
  | cons op rest ih =>
    intro cp u h
    show Tracked u (List.foldl step (step cp op) rest)
    exact ih (step_tracked op h)

/-- Every url mentioned by some add_pending call of a run is tracked at the
end of the run. -/
theorem run_added_tracked : ∀ (ops : List CheckpointOp) {cp : Checkpoint}
    {u : PyStr}, wasAdded u ops = true → Tracked u (run cp ops) := by
  intro ops
  induction ops with
  | nil => intro cp u h; cases h
  | cons op rest ih =>
    intro cp u h
    rw [wasAdded, List.any_cons, Bool.or_eq_true] at h
    show Tracked u (List.foldl step (step cp op) rest)
    rcases h with h | h
    · have hstep : Tracked u (step cp op) := by
        cases op with
        | add_pending urls =>
          exact add_pending_mem_tracked urls (by simpa using h)
        | mark_completed url locs t => cases h
        | mark_failed url err t => cases h
      exact run_tracked rest hstep
    · exact ih h

end CheckpointManager

/-! ## Claim theorems -/

/-- Claim C5: HoursNormalizer.merge_hours computes the merged confidence as
Python max over ConfidenceLevel, a str-valued enum compared lexicographically
on the strings, where "high" < "low" < "medium" < "unsure"; hence merging with
an UNSURE operand always yields UNSURE, and LOW outranks HIGH. -/
theorem merge_hours_confidence_lexicographic :
    (Py.strLt (pstr "high") (pstr "low") = true ∧
     Py.strLt (pstr "low") (pstr "medium") = true ∧
     Py.strLt (pstr "medium") (pstr "unsure") = true) ∧
    (∀ base override : Hours,
      (HoursNormalizer.merge_hours base override).confidence
        = confMax override.confidence base.confidence ∧
      ((override.confidence = .UNSURE ∨ base.confidence = .UNSURE) →
        (HoursNormalizer.merge_hours base override).confidence = .UNSURE) ∧
      ((override.confidence = .LOW ∧ base.confidence = .HIGH) ∨
       (override.confidence = .HIGH ∧ base.confidence = .LOW) →
        (HoursNormalizer.merge_hours base override).confidence = .LOW)) := by
  refine ⟨⟨by decide, by decide, by decide⟩, fun base override => ⟨rfl, ?_, ?_⟩⟩
  · intro h
    show confMax override.confidence base.confidence = .UNSURE
    rcases h with h | h <;> rw [h] <;>
      first
        | (cases base.confidence <;> decide)
        | (cases override.confidence <;> decide)
  · intro h
    show confMax override.confidence base.confidence = .LOW
    rcases h with ⟨h1, h2⟩ | ⟨h1, h2⟩ <;> rw [h1, h2] <;> decide

/-- Witness for C5 at concrete confidence values. -/
theorem merge_hours_confidence_lexicographic_witness :
    (HoursNormalizer.merge_hours { confidence := .HIGH } { confidence := .UNSURE }).confidence
      = ConfidenceLevel.UNSURE ∧
    (HoursNormalizer.merge_hours { confidence := .HIGH } { confidence := .LOW }).confidence
      = ConfidenceLevel.LOW :=
  ⟨(merge_hours_confidence_lexicographic.2 { confidence := .HIGH }
      { confidence := .UNSURE }).2.1 (Or.inl rfl),
   (merge_hours_confidence_lexicographic.2 { confidence := .HIGH }
      { confidence := .LOW }).2.2 (Or.inl ⟨rfl, rfl⟩)⟩

/-- Counterexample to Claim C8 as stated: an override day holding the empty
string is neither "Closed" nor absent, yet merge_hours keeps the base value
for that day rather than the override's value. -/
theorem merge_hours_override_empty_counterexample :
    (some ([] : PyStr) ≠ none ∧ some ([] : PyStr) ≠ some (pstr "Closed")) ∧
    (HoursNormalizer.merge_hours { monday := some (pstr "9:00 AM – 5:00 PM") }
        { monday := some [] }).monday = some (pstr "9:00 AM – 5:00 PM") ∧
    (HoursNormalizer.merge_hours { monday := some (pstr "9:00 AM – 5:00 PM") }
        { monday := some [] }).monday ≠ some ([] : PyStr) := by
  refine ⟨⟨by decide, by decide⟩, rfl, by decide⟩

/-- Claim C8 (amended: override's value is also discarded when it is the
empty string, which Python treats as falsy): for every pair of Hours values
and every weekday, merge_hours yields override's value for that day unless
that value is "Closed", absent, or empty, in which case base's value is
kept; in particular an override of "Closed" never clobbers base data. -/
theorem merge_hours_day_rule :
    ∀ base override : Hours,
      (((override.monday = none ∨ override.monday = some [] ∨
          override.monday = some (pstr "Closed")) →
        (HoursNormalizer.merge_hours base override).monday = base.monday) ∧
       (∀ v, override.monday = some v → v ≠ [] → v ≠ pstr "Closed" →
        (HoursNormalizer.merge_hours base override).monday = some v)) ∧
      (((override.tuesday = none ∨ override.tuesday = some [] ∨
          override.tuesday = some (pstr "Closed")) →
        (HoursNormalizer.merge_hours base override).tuesday = base.tuesday) ∧
       (∀ v, override.tuesday = some v → v ≠ [] → v ≠ pstr "Closed" →
        (HoursNormalizer.merge_hours base override).tuesday = some v)) ∧
      (((override.wednesday = none ∨ override.wednesday = some [] ∨
          override.wednesday = some (pstr "Closed")) →
        (HoursNormalizer.merge_hours base override).wednesday = base.wednesday) ∧
       (∀ v, override.wednesday = some v → v ≠ [] → v ≠ pstr "Closed" →
        (HoursNormalizer.merge_hours base override).wednesday = some v)) ∧
      (((override.thursday = none ∨ override.thursday = some [] ∨
          override.thursday = some (pstr "Closed")) →
        (HoursNormalizer.merge_hours base override).thursday = base.thursday) ∧
       (∀ v, override.thursday = some v → v ≠ [] → v ≠ pstr "Closed" →
        (HoursNormalizer.merge_hours base override).thursday = some v)) ∧
      (((override.friday = none ∨ override.friday = some [] ∨
          override.friday = some (pstr "Closed")) →
        (HoursNormalizer.merge_hours base override).friday = base.friday) ∧
       (∀ v, override.friday = some v → v ≠ [] → v ≠ pstr "Closed" →
        (HoursNormalizer.merge_hours base override).friday = some v)) ∧
      (((override.saturday = none ∨ override.saturday = some [] ∨
          override.saturday = some (pstr "Closed")) →
        (HoursNormalizer.merge_hours base override).saturday = base.saturday) ∧
       (∀ v, override.saturday = some v → v ≠ [] → v ≠ pstr "Closed" →
        (HoursNormalizer.merge_hours base override).saturday = some v)) ∧
      (((override.sunday = none ∨ override.sunday = some [] ∨
          override.sunday = some (pstr "Closed")) →
        (HoursNormalizer.merge_hours base override).sunday = base.sunday) ∧
       (∀ v, override.sunday = some v → v ≠ [] → v ≠ pstr "Closed" →
        (HoursNormalizer.merge_hours base override).sunday = some v)) :=
  fun base override =>
    ⟨mergeDay_spec base.monday override.monday,
     mergeDay_spec base.tuesday override.tuesday,
     mergeDay_spec base.wednesday override.wednesday,
     mergeDay_spec base.thursday override.thursday,
     mergeDay_spec base.friday override.friday,
     mergeDay_spec base.saturday override.saturday,
     mergeDay_spec base.sunday override.sunday⟩

/-- Witness for C8: override "Closed" keeps the base range on Monday, and a
real override value wins. -/
theorem merge_hours_day_rule_witness :
    (HoursNormalizer.merge_hours { monday := some (pstr "9:00 AM – 5:00 PM") }
        { monday := some (pstr "Closed") }).monday = some (pstr "9:00 AM – 5:00 PM") ∧
    (HoursNormalizer.merge_hours { tuesday := some (pstr "Closed") }
        { tuesday := some (pstr "8:00 AM – 4:00 PM") }).tuesday
      = some (pstr "8:00 AM – 4:00 PM") :=
  ⟨(merge_hours_day_rule { monday := some (pstr "9:00 AM – 5:00 PM") }
      { monday := some (pstr "Closed") }).1.1 (Or.inr (Or.inr rfl)),
   (merge_hours_day_rule { tuesday := some (pstr "Closed") }
      { tuesday := some (pstr "8:00 AM – 4:00 PM") }).2.1.2
      (pstr "8:00 AM – 4:00 PM") rfl (by decide) (by decide)⟩

/-- Claim C4: on every successful county lookup, the suffix re-derivation
yields Parish for LA, Borough for AK, Independent City for VA when the
(suffix-stripped) returned name is one of the fixed independent-city names,
and County for every other state; the geocoder name has any
" County"/" Parish"/" Borough" occurrence stripped before the suffix is
re-derived, so a name already carrying " County" is stripped and
reassigned. -/
theorem parse_census_response_suffix_rules :
    ∀ (api_url : PyStr) (data : CensusResult) (state : Option PyStr) (c : County),
      CensusBureauClient.parse_census_response api_url data state = some c →
      (state = some (pstr "LA") → c.label = some (pstr "Parish")) ∧
      (state = some (pstr "AK") → c.label = some (pstr "Borough")) ∧
      (state = some (pstr "VA") → ∀ n, c.name = some n →
        CensusBureauClient.va_independent_cities.contains n = true →
        c.label = some (pstr "Independent City")) ∧
      (∀ st, state = some st → st ≠ [] →
        Py.upper st ≠ pstr "LA" → Py.upper st ≠ pstr "AK" → Py.upper st ≠ pstr "VA" →
        c.label = some (pstr "County")) ∧
      (∀ rec rest,
        (CensusBureauClient.response_geographies data).Counties = rec :: rest →
        c.name = some (CensusBureauClient.clean_county_name rec.NAME) ∧
        c.label = some (CensusBureauClient.determine_county_suffix
          (CensusBureauClient.clean_county_name rec.NAME) state)) := by
  intro api_url data state c h
  unfold CensusBureauClient.parse_census_response at h
  rcases hC : (CensusBureauClient.response_geographies data).Counties with
    _ | ⟨rec, rest⟩
  · rw [hC] at h; exact absurd h (by simp)
  · rw [hC] at h
    dsimp only at h
    by_cases hname : rec.NAME = []
    · rw [if_pos hname] at h; exact absurd h (by simp)
    · rw [if_neg hname] at h
      rw [Option.some.injEq] at h
      subst h
      refine ⟨?_, ?_, ?_, ?_, ?_⟩
      · intro hst; subst hst; rfl
      · intro hst; subst hst; rfl
      · intro hst n hn hmem
        subst hst
        simp only [Option.some.injEq] at hn
        subst hn
        show some (CensusBureauClient.determine_county_suffix _ _) = _
        unfold CensusBureauClient.determine_county_suffix
        have hmem' : CensusBureauClient.clean_county_name rec.NAME ∈
            CensusBureauClient.va_independent_cities := by simpa using hmem
        simp [hmem', Py.upper, pstr]
      · intro st hst hne hLA hAK hVA
        subst hst
        show some (CensusBureauClient.determine_county_suffix _ _) = _
        unfold CensusBureauClient.determine_county_suffix
        simp only [if_neg hne, if_neg hLA, if_neg hAK]
        rw [if_neg (by simp [hVA])]
      · intro rec' rest' hC'
        injection hC' with h1 _
        subst h1
        exact ⟨rfl, rfl⟩

/-- Witness for C4: a VA response naming Richmond yields Independent City, a
TX response naming "Harris County" is stripped to Harris and reassigned the
County suffix. -/
theorem parse_census_response_suffix_rules_witness :
    (CensusBureauClient.parse_census_response (pstr "api")
        { addressMatches := [{ geographies := { Counties := [{ NAME := pstr "Richmond" }] } }] }
        (some (pstr "VA"))
      = some { name := some (pstr "Richmond"), label := some (pstr "Independent City")
               full_name := some (pstr "Richmond Independent City")
               source := some (pstr "Census Bureau Geocoder")
               verification_url := some (pstr "api"), confidence := .HIGH }) ∧
    ((CensusBureauClient.parse_census_response (pstr "api")
        { addressMatches := [{ geographies := { Counties := [{ NAME := pstr "Harris County" }] } }] }
        (some (pstr "TX"))).map County.label
      = some (some (pstr "County"))) ∧
    ((CensusBureauClient.parse_census_response (pstr "api")
        { addressMatches := [{ geographies := { Counties := [{ NAME := pstr "Harris County" }] } }] }
        (some (pstr "TX"))).map County.name
      = some (some (pstr "Harris"))) := by
  refine ⟨by decide, ?_, ?_⟩
  · have h := parse_census_response_suffix_rules (pstr "api")
      { addressMatches := [{ geographies := { Counties := [{ NAME := pstr "Harris County" }] } }] }
      (some (pstr "TX"))
      (County.mk (some (pstr "Harris")) (some (pstr "County"))
        (some (pstr "Harris County")) (some (pstr "Census Bureau Geocoder"))
        (some (pstr "api")) .HIGH) (by decide)
    have h4 := h.2.2.2.1 (pstr "TX") rfl (by decide) (by decide) (by decide) (by decide)
    decide
  · decide

/-- Claim C10: when both the address-based and the coordinate-based lookup
fail (including when the inputs a tier needs are missing or falsy),
CountyLookupService.lookup_county returns the explicit County record with
full_name "Unsure" and UNSURE confidence, never an absent result. -/
theorem lookup_county_failure_returns_unsure :
    ∀ (by_address : PyStr → PyStr → PyStr → Option PyStr → Option County)
      (by_coordinates : ℚ → ℚ → Option PyStr → Option County)
      (street city state zip_code : Option PyStr) (latitude longitude : Option ℚ),
      (∀ a b c d, by_address a b c d = none) →
      (∀ x y s, by_coordinates x y s = none) →
      CountyLookupService.lookup_county by_address by_coordinates
          street city state zip_code latitude longitude
        = some { name := none, label := none, full_name := some (pstr "Unsure")
                 source := some (pstr "Census lookup failed")
                 verification_url := none, confidence := .UNSURE } := by
  intro by_address by_coordinates street city state zip_code latitude longitude hA hB
  unfold CountyLookupService.lookup_county
  simp only [hA, hB]
  cases Py.truthy street && Py.truthy city && Py.truthy state <;>
    cases CountyLookupService.truthyNum latitude &&
      CountyLookupService.truthyNum longitude <;> rfl

/-- Witness for C10 with constantly failing oracles and present inputs. -/
theorem lookup_county_failure_returns_unsure_witness :
    CountyLookupService.lookup_county (fun _ _ _ _ => none) (fun _ _ _ => none)
        (some (pstr "1 Main St")) (some (pstr "Austin")) (some (pstr "TX")) none
        (some 30) (some (-97))
      = some { name := none, label := none, full_name := some (pstr "Unsure")
               source := some (pstr "Census lookup failed")
               verification_url := none, confidence := .UNSURE } :=
  lookup_county_failure_returns_unsure (fun _ _ _ _ => none) (fun _ _ _ => none)
    (some (pstr "1 Main St")) (some (pstr "Austin")) (some (pstr "TX")) none
    (some 30) (some (-97)) (fun _ _ _ _ => rfl) (fun _ _ _ => rfl)

/-- Counterexample to Claim C1 as stated: the claim quantifies over every
sequence of calls with any URL arguments, but mark_completed and mark_failed
append unconditionally, so marking the same URL completed and then failed
leaves it in both the completed and the failed list at once. -/
theorem checkpoint_invariant_counterexample :
    pstr "a" ∈ CheckpointManager.get_completed_urls
      (CheckpointManager.run (CheckpointManager.init (pstr "s") 0)
        [CheckpointOp.add_pending [pstr "a"],
         CheckpointOp.mark_completed (pstr "a") 1 1,
         CheckpointOp.mark_failed (pstr "a") (pstr "boom") 2]) ∧
    pstr "a" ∈ CheckpointManager.get_failed_urls
      (CheckpointManager.run (CheckpointManager.init (pstr "s") 0)
        [CheckpointOp.add_pending [pstr "a"],
         CheckpointOp.mark_completed (pstr "a") 1 1,
         CheckpointOp.mark_failed (pstr "a") (pstr "boom") 2]) := by
  exact ⟨by decide, by decide⟩

section
open CheckpointManager

/-- Claim C1 (amended: restricted to call sequences in which mark_completed
and mark_failed are invoked only on URLs currently in the pending list,
which is how the orchestrator uses the manager — the source itself appends
unconditionally, so an arbitrary sequence can duplicate a URL across
lists): starting from a fresh checkpoint, after any such legal sequence of
add_pending/mark_completed/mark_failed calls the three lists are pairwise
disjoint by URL, every URL ever passed to add_pending appears in exactly
one of them, and on a duplicate-free pending list a mark call moves its URL
out of pending in the same transition that appends it to the target
list. -/
theorem checkpoint_invariant_legal_runs :
    (∀ (sid : PyStr) (t0 : Nat) (ops : List CheckpointOp),
      legalRun (init sid t0) ops = true →
      (∀ u, ¬(u ∈ get_completed_urls (run (init sid t0) ops) ∧
              u ∈ get_failed_urls (run (init sid t0) ops))) ∧
      (∀ u, ¬(u ∈ get_completed_urls (run (init sid t0) ops) ∧
              u ∈ (run (init sid t0) ops).pending)) ∧
      (∀ u, ¬(u ∈ get_failed_urls (run (init sid t0) ops) ∧
              u ∈ (run (init sid t0) ops).pending)) ∧
      (∀ u, wasAdded u ops = true →
        (u ∈ get_completed_urls (run (init sid t0) ops) ∧
         u ∉ get_failed_urls (run (init sid t0) ops) ∧
         u ∉ (run (init sid t0) ops).pending) ∨
        (u ∈ get_failed_urls (run (init sid t0) ops) ∧
         u ∉ get_completed_urls (run (init sid t0) ops) ∧
         u ∉ (run (init sid t0) ops).pending) ∨
        (u ∈ (run (init sid t0) ops).pending ∧
         u ∉ get_completed_urls (run (init sid t0) ops) ∧
         u ∉ get_failed_urls (run (init sid t0) ops)))) ∧
    (∀ (cp : Checkpoint) (u : PyStr) (locs t : Nat), cp.pending.Nodup →
      u ∈ cp.pending →
      get_completed_urls (mark_completed cp u locs t) = get_completed_urls cp ++ [u] ∧
      u ∉ (mark_completed cp u locs t).pending) ∧
    (∀ (cp : Checkpoint) (u err : PyStr) (t : Nat), cp.pending.Nodup →
      u ∈ cp.pending →
      get_failed_urls (mark_failed cp u err t) = get_failed_urls cp ++ [u] ∧
      u ∉ (mark_failed cp u err t).pending) := by
  refine ⟨?_, ?_, ?_⟩
  · intro sid t0 ops hleg
    have hInv0 : Inv (init sid t0) := by
      refine ⟨List.nodup_nil, List.nodup_nil, List.nodup_nil, ?_, ?_, ?_⟩ <;>
        intro u h <;> exact absurd h (List.not_mem_nil u)
    have hInv := run_inv ops hInv0 hleg
    obtain ⟨hp, hc, hf, hcf, hcp, hfp⟩ := hInv
    refine ⟨fun u h => hcf u h.1 h.2, fun u h => hcp u h.1 h.2,
      fun u h => hfp u h.1 h.2, ?_⟩
    intro u hadd
    have htr : Tracked u (run (init sid t0) ops) := run_added_tracked ops hadd
    rcases htr with h | h | h
    · exact Or.inl ⟨h, hcf u h, hcp u h⟩
    · exact Or.inr (Or.inl ⟨h, fun hin => hcf u hin h, hfp u h⟩)
    · exact Or.inr (Or.inr ⟨h, fun hin => hcp u hin h, fun hin => hfp u hin h⟩)
  · intro cp u locs t hnd hu
    obtain ⟨eC, _, eP⟩ := mark_completed_spec cp u locs t
    rw [if_pos hu] at eP
    refine ⟨eC, ?_⟩
    rw [eP]
    exact fun hmem => (hnd.mem_erase_iff.mp hmem).1 rfl
  · intro cp u err t hnd hu
    obtain ⟨_, eF, eP⟩ := mark_failed_spec cp u err t
    rw [if_pos hu] at eP
    refine ⟨eF, ?_⟩
    rw [eP]
    exact fun hmem => (hnd.mem_erase_iff.mp hmem).1 rfl

end

/-- Witness for the amended C1 at a concrete legal call sequence. -/
theorem checkpoint_invariant_legal_runs_witness :
    (¬(pstr "a" ∈ CheckpointManager.get_completed_urls
        (CheckpointManager.run (CheckpointManager.init (pstr "s") 0)
          [CheckpointOp.add_pending [pstr "a", pstr "b"],
           CheckpointOp.mark_completed (pstr "a") 1 5]) ∧
       pstr "a" ∈ CheckpointManager.get_failed_urls
        (CheckpointManager.run (CheckpointManager.init (pstr "s") 0)
          [CheckpointOp.add_pending [pstr "a", pstr "b"],
           CheckpointOp.mark_completed (pstr "a") 1 5]))) ∧
    ((pstr "b" ∈ CheckpointManager.get_completed_urls
        (CheckpointManager.run (CheckpointManager.init (pstr "s") 0)
          [CheckpointOp.add_pending [pstr "a", pstr "b"],
           CheckpointOp.mark_completed (pstr "a") 1 5]) ∧
      pstr "b" ∉ CheckpointManager.get_failed_urls
        (CheckpointManager.run (CheckpointManager.init (pstr "s") 0)
          [CheckpointOp.add_pending [pstr "a", pstr "b"],
           CheckpointOp.mark_completed (pstr "a") 1 5]) ∧
      pstr "b" ∉ (CheckpointManager.run (CheckpointManager.init (pstr "s") 0)
          [CheckpointOp.add_pending [pstr "a", pstr "b"],
           CheckpointOp.mark_completed (pstr "a") 1 5]).pending) ∨
     (pstr "b" ∈ CheckpointManager.get_failed_urls
        (CheckpointManager.run (CheckpointManager.init (pstr "s") 0)
          [CheckpointOp.add_pending [pstr "a", pstr "b"],
           CheckpointOp.mark_completed (pstr "a") 1 5]) ∧
      pstr "b" ∉ CheckpointManager.get_completed_urls
        (CheckpointManager.run (CheckpointManager.init (pstr "s") 0)
          [CheckpointOp.add_pending [pstr "a", pstr "b"],
           CheckpointOp.mark_completed (pstr "a") 1 5]) ∧
      pstr "b" ∉ (CheckpointManager.run (CheckpointManager.init (pstr "s") 0)
          [CheckpointOp.add_pending [pstr "a", pstr "b"],
           CheckpointOp.mark_completed (pstr "a") 1 5]).pending) ∨
     (pstr "b" ∈ (CheckpointManager.run (CheckpointManager.init (pstr "s") 0)
          [CheckpointOp.add_pending [pstr "a", pstr "b"],
           CheckpointOp.mark_completed (pstr "a") 1 5]).pending ∧
      pstr "b" ∉ CheckpointManager.get_completed_urls
        (CheckpointManager.run (CheckpointManager.init (pstr "s") 0)
          [CheckpointOp.add_pending [pstr "a", pstr "b"],
           CheckpointOp.mark_completed (pstr "a") 1 5]) ∧
      pstr "b" ∉ CheckpointManager.get_failed_urls
        (CheckpointManager.run (CheckpointManager.init (pstr "s") 0)
          [CheckpointOp.add_pending [pstr "a", pstr "b"],
           CheckpointOp.mark_completed (pstr "a") 1 5]))) := by
  have h := checkpoint_invariant_legal_runs.1 (pstr "s") 0
    [CheckpointOp.add_pending [pstr "a", pstr "b"],
     CheckpointOp.mark_completed (pstr "a") 1 5] (by decide)
  exact ⟨h.1 (pstr "a"), h.2.2.2 (pstr "b") (by decide)⟩

/-- takeDigits returns exactly n digit characters that prefix the input. -/
theorem takeDigits_spec : ∀ (n : Nat) (l d r : PyStr),
    PhonePattern.takeDigits n l = some (d, r) →
    d.length = n ∧ (∀ c ∈ d, c.isDigit = true) ∧ l = d ++ r := by
  intro n
  induction n with
  | zero =>
    intro l d r h
    simp only [PhonePattern.takeDigits, Option.some.injEq, Prod.mk.injEq] at h
    obtain ⟨rfl, rfl⟩ := h
    exact ⟨rfl, by simp, rfl⟩
  | succ n ih =>
    intro l d r h
    cases l with
    | nil => simp [PhonePattern.takeDigits] at h
    | cons c cs =>
      simp only [PhonePattern.takeDigits] at h
      by_cases hc : c.isDigit
      · rw [if_pos hc] at h
        cases htd : PhonePattern.takeDigits n cs with
        | none => rw [htd] at h; cases h
        | some pr =>
          obtain ⟨d', r'⟩ := pr
          rw [htd] at h
          simp only [Option.some.injEq, Prod.mk.injEq] at h
          obtain ⟨rfl, rfl⟩ := h
          obtain ⟨hlen, hdig, heq⟩ := ih cs d' r' htd
          refine ⟨by simp [hlen], ?_, by simp [heq]⟩
          intro x hx
          rcases List.mem_cons.mp hx with rfl | hx
          · exact hc
          · exact hdig x hx
      · rw [if_neg hc] at h; cases h

/-- The groups of a successful matchRest have widths 3, 3 and 4 and consist
of digits. -/
theorem matchRest_spec {l : PyStr} {g : PyStr × PyStr × PyStr} {rest : PyStr}
    (h : PhonePattern.matchRest l = some (g, rest)) :
    (g.1.length = 3 ∧ ∀ c ∈ g.1, c.isDigit = true) ∧
    (g.2.1.length = 3 ∧ ∀ c ∈ g.2.1, c.isDigit = true) ∧
    (g.2.2.length = 4 ∧ ∀ c ∈ g.2.2, c.isDigit = true) := by
  unfold PhonePattern.matchRest at h
  split at h
  · cases h
  · rename_i g1 r1 h1
    split at h
    · cases h
    · rename_i g2 r2 h2
      split at h
      · cases h
      · rename_i g3 r3 h3
        simp only [Option.some.injEq, Prod.mk.injEq] at h
        obtain ⟨rfl, -⟩ := h
        obtain ⟨e1, d1, -⟩ := takeDigits_spec 3 _ _ _ h1
        obtain ⟨e2, d2, -⟩ := takeDigits_spec 3 _ _ _ h2
        obtain ⟨e3, d3, -⟩ := takeDigits_spec 4 _ _ _ h3
        exact ⟨⟨e1, d1⟩, ⟨e2, d2⟩, ⟨e3, d3⟩⟩

/-- The groups of a successful tryMatch have widths 3, 3 and 4 and consist
of digits. -/
theorem tryMatch_spec {l : PyStr} {g : PyStr × PyStr × PyStr} {rest : PyStr}
    (h : PhonePattern.tryMatch l = some (g, rest)) :
    (g.1.length = 3 ∧ ∀ c ∈ g.1, c.isDigit = true) ∧
    (g.2.1.length = 3 ∧ ∀ c ∈ g.2.1, c.isDigit = true) ∧
    (g.2.2.length = 4 ∧ ∀ c ∈ g.2.2, c.isDigit = true) := by
  unfold PhonePattern.tryMatch at h
  split at h
  · cases h
  · split at h
    · split at h
      · rename_i hm
        simp only [Option.some.injEq] at h
        rw [h] at hm
        exact matchRest_spec hm
      · exact matchRest_spec h
    · exact matchRest_spec h

/-- Definitional unfolding of one findall scan step. -/
theorem findallGo_succ (fuel : Nat) (l : PyStr) :
    PhonePattern.findallGo (fuel + 1) l =
      match PhonePattern.tryMatch l with
      | some (g, rest) => g :: PhonePattern.findallGo fuel rest
      | none =>
        match l with
        | [] => []
        | _ :: t => PhonePattern.findallGo fuel t := rfl

/-- Every tuple reported by the findall scan comes from a successful
tryMatch. -/
theorem findallGo_mem : ∀ (fuel : Nat) (l : PyStr) (m : PyStr × PyStr × PyStr),
    m ∈ PhonePattern.findallGo fuel l →
    ∃ l' rest, PhonePattern.tryMatch l' = some (m, rest) := by
  intro fuel
  induction fuel with
  | zero => intro l m h; cases h
  | succ fuel ih =>
    intro l m h
    rw [findallGo_succ] at h
    split at h
    · rename_i g rest heq
      rcases List.mem_cons.mp h with rfl | h
      · exact ⟨l, rest, heq⟩
      · exact ih rest m h
    · cases l with
      | nil => simp at h
      | cons c t => exact ih t m h

/-- Claim C2: every candidate accepted by PhoneExtractor._find_phone_numbers
has exactly 10 extracted digits and a first-three-digit prefix different
from "000", "111" and "555"; hence an input whose extracted digit count is
not 10 or whose prefix is one of those yields no accepted candidate. -/
theorem find_phone_numbers_only_valid :
    ∀ (text p : PyStr), p ∈ PhoneExtractor.find_phone_numbers text →
      p.length = 10 ∧ (∀ c ∈ p, c.isDigit = true) ∧
      p.take 3 ≠ pstr "000" ∧ p.take 3 ≠ pstr "111" ∧ p.take 3 ≠ pstr "555" := by
  intro text p hp
  unfold PhoneExtractor.find_phone_numbers at hp
  rw [List.mem_filter] at hp
  obtain ⟨hmem, hfilt⟩ := hp
  rw [List.mem_map] at hmem
  obtain ⟨m, hm, rfl⟩ := hmem
  obtain ⟨l', rest, htm⟩ := findallGo_mem _ _ _ hm
  obtain ⟨⟨e1, d1⟩, ⟨e2, d2⟩, ⟨e3, d3⟩⟩ := tryMatch_spec htm
  have htake : (m.1 ++ m.2.1 ++ m.2.2).take 3 = m.1 := by
    rw [List.append_assoc, ← e1, List.take_left]
  rw [Bool.and_eq_true] at hfilt
  have hnotmem : m.1 ∉ [pstr "000", pstr "111", pstr "555"] := by
    have h2 := hfilt.2
    rw [htake] at h2
    simpa using h2
  rw [htake]
  refine ⟨by simp [e1, e2, e3], ?_, ?_, ?_, ?_⟩
  · intro c hc
    rcases List.mem_append.mp hc with hc' | hc'
    · rcases List.mem_append.mp hc' with hc'' | hc''
      · exact d1 c hc''
      · exact d2 c hc''
    · exact d3 c hc'
  · exact fun hh => hnotmem (hh ▸ List.mem_cons_self _ _)
  · exact fun hh => hnotmem (hh ▸ List.mem_cons_of_mem _ (List.mem_cons_self _ _))
  · exact fun hh => hnotmem
      (hh ▸ List.mem_cons_of_mem _ (List.mem_cons_of_mem _ (List.mem_cons_self _ _)))

/-- Witness for C2: a concrete accepted candidate. -/
theorem find_phone_numbers_only_valid_witness :
    pstr "2345678901" ∈
      PhoneExtractor.find_phone_numbers (pstr "Call 234-567-8901 now") ∧
    (pstr "2345678901").length = 10 ∧
    (pstr "2345678901").take 3 ≠ pstr "555" :=
  ⟨by decide,
   (find_phone_numbers_only_valid (pstr "Call 234-567-8901 now")
      (pstr "2345678901") (by decide)).1,
   (find_phone_numbers_only_valid (pstr "Call 234-567-8901 now")
      (pstr "2345678901") (by decide)).2.2.2.2⟩

/-- A successful extraction yields a 10-character all-digit string. -/
theorem extract_digits_spec {p d : PyStr}
    (h : PhoneValidator.extract_digits p = some d) :
    d.length = 10 ∧ ∀ c ∈ d, c.isDigit = true := by
  unfold PhoneValidator.extract_digits at h
  split at h
  · cases h
  · split at h
    · rename_i g rest heq
      simp only [Option.some.injEq] at h
      subst h
      obtain ⟨⟨e1, d1⟩, ⟨e2, d2⟩, ⟨e3, d3⟩⟩ := tryMatch_spec heq
      refine ⟨by simp [e1, e2, e3], ?_⟩
      intro c hc
      rcases List.mem_append.mp hc with hc' | hc'
      · rcases List.mem_append.mp hc' with hc'' | hc''
        · exact d1 c hc''
        · exact d2 c hc''
      · exact d3 c hc'
    · cases h

/-- Filtering the digits back out of the pretty form recovers the digit
string it was built from. -/
theorem prettyShape_filter {d : PyStr} (hd : ∀ c ∈ d, c.isDigit = true) :
    (PhoneValidator.prettyShape d).filter Char.isDigit = d := by
  have htake3 : ∀ c ∈ d.take 3, c.isDigit = true :=
    fun c hc => hd c (List.take_subset _ _ hc)
  have hmid : ∀ c ∈ (d.drop 3).take 3, c.isDigit = true :=
    fun c hc => hd c (List.drop_subset _ _ (List.take_subset _ _ hc))
  have hdrop6 : ∀ c ∈ d.drop 6, c.isDigit = true :=
    fun c hc => hd c (List.drop_subset _ _ hc)
  have hparen : Char.isDigit '(' = false := by decide
  have hparen2 : Char.isDigit ')' = false := by decide
  have hspace : Char.isDigit ' ' = false := by decide
  have hdash : Char.isDigit '-' = false := by decide
  unfold PhoneValidator.prettyShape
  simp only [List.filter_cons, List.filter_append, hparen, hparen2, hspace,
    hdash, List.filter_eq_self.mpr htake3, List.filter_eq_self.mpr hmid,
    List.filter_eq_self.mpr hdrop6, Bool.false_eq_true, if_false]
  have hdd : (d.drop 3).drop 3 = d.drop 6 := by
    rw [List.drop_drop]
  have hmidsplit : (d.drop 3).take 3 ++ d.drop 6 = d.drop 3 := by
    rw [← hdd, List.take_append_drop]
  rw [List.append_assoc, hmidsplit, List.take_append_drop]

/-- Claim C6: for every input and source, the Phone produced by
PhoneNormalizer.normalize has pretty and digits either both present —
derived from the same extracted 10-digit string, with digits recoverable
from pretty — or both absent. -/
theorem normalize_pretty_digits_consistent :
    ∀ (raw : PyStr) (source : Option ExtractionStrategy) (ph : Phone),
      PhoneNormalizer.normalize raw source = some ph →
      (ph.pretty = none ∧ ph.digits = none) ∨
      (∃ d, PhoneValidator.extract_digits raw = some d ∧ d.length = 10 ∧
        ph.digits = some d ∧ ph.pretty = some (PhoneValidator.prettyShape d) ∧
        (PhoneValidator.prettyShape d).filter Char.isDigit = d) := by
  intro raw source ph h
  unfold PhoneNormalizer.normalize at h
  by_cases h0 : raw = []
  · rw [if_pos h0] at h; cases h
  · rw [if_neg h0] at h
    by_cases hv : PhoneValidator.validate_phone raw = true
    · rw [if_neg (by simp [hv])] at h
      have hv' := hv
      unfold PhoneValidator.validate_phone at hv'
      rw [if_neg h0] at hv'
      cases he : PhoneValidator.extract_digits raw with
      | none => rw [he] at hv'; simp at hv'
      | some d =>
        rw [he] at hv'
        simp only [beq_iff_eq] at hv'
        have hne : d ≠ [] := by
          intro hd; subst hd; simp at hv'
        have hp : PhoneValidator.format_pretty raw
            = some (PhoneValidator.prettyShape d) := by
          unfold PhoneValidator.format_pretty
          rw [he]
          simp [hne, hv']
        have hd2 : PhoneValidator.format_digits_only raw = some d := by
          unfold PhoneValidator.format_digits_only
          rw [he]
          simp [hne, hv']
        have ht1 : Py.truthy (some (PhoneValidator.prettyShape d)) = true := by
          simp [Py.truthy, PhoneValidator.prettyShape]
        have ht2 : Py.truthy (some d) = true := by
          simp [Py.truthy, hne]
        simp only [hp, hd2, ht1, ht2, Bool.not_true, Bool.or_self,
          Bool.false_eq_true, if_false, Option.some.injEq] at h
        subst h
        right
        refine ⟨d, ?_, ?_, ?_, ?_, ?_⟩
        · rfl
        · exact hv'
        · rfl
        · rfl
        · exact prettyShape_filter (extract_digits_spec he).2
    · rw [if_pos (by simpa using hv)] at h
      simp only [Option.some.injEq] at h
      subst h
      exact Or.inl ⟨rfl, rfl⟩

/-- Witness for C6 on a concrete well-formed phone string. -/
theorem normalize_pretty_digits_consistent_witness :
    PhoneNormalizer.normalize (pstr "(234) 567-8901") none
      = some { raw := some (pstr "(234) 567-8901")
               pretty := some (pstr "(234) 567-8901")
               digits := some (pstr "2345678901")
               source := none, confidence := .HIGH } ∧
    ((({ raw := some (pstr "(234) 567-8901")
         pretty := some (pstr "(234) 567-8901")
         digits := some (pstr "2345678901")
         source := none, confidence := .HIGH } : Phone).pretty = none ∧
      ({ raw := some (pstr "(234) 567-8901")
         pretty := some (pstr "(234) 567-8901")
         digits := some (pstr "2345678901")
         source := none, confidence := .HIGH } : Phone).digits = none) ∨
     (∃ d, PhoneValidator.extract_digits (pstr "(234) 567-8901") = some d ∧
       d.length = 10 ∧
       ({ raw := some (pstr "(234) 567-8901")
          pretty := some (pstr "(234) 567-8901")
          digits := some (pstr "2345678901")
          source := none, confidence := .HIGH } : Phone).digits = some d ∧
       ({ raw := some (pstr "(234) 567-8901")
          pretty := some (pstr "(234) 567-8901")
          digits := some (pstr "2345678901")
          source := none, confidence := .HIGH } : Phone).pretty
         = some (PhoneValidator.prettyShape d) ∧
       (PhoneValidator.prettyShape d).filter Char.isDigit = d)) :=
  ⟨by decide,
   normalize_pretty_digits_consistent (pstr "(234) 567-8901") none _ (by decide)⟩

/-- The loop of normalize_multiple returns the normalization of the first
input that succeeds, or nothing. -/
theorem normalize_multiple_go_eq (source : Option ExtractionStrategy) :
    ∀ l : List PyStr,
      PhoneNormalizer.normalize_multiple_go source l =
        match l.find? (PhoneNormalizer.succeeds source) with
        | some p => PhoneNormalizer.normalize p source
        | none => none := by
  intro l
  induction l with
  | nil => rfl
  | cons p rest ih =>
    cases hn : PhoneNormalizer.normalize p source with
    | none =>
      have hs : PhoneNormalizer.succeeds source p = false := by
        simp [PhoneNormalizer.succeeds, hn]
      rw [List.find?_cons_of_neg _ (by simp [hs])]
      simp only [PhoneNormalizer.normalize_multiple_go, hn]
      exact ih
    | some r =>
      by_cases hc : r.confidence = .UNSURE
      · have hs : PhoneNormalizer.succeeds source p = false := by
          simp [PhoneNormalizer.succeeds, hn, hc]
        rw [List.find?_cons_of_neg _ (by simp [hs])]
        simp only [PhoneNormalizer.normalize_multiple_go, hn, hc, ne_eq,
          not_true_eq_false, if_false]
        exact ih
      · have hs : PhoneNormalizer.succeeds source p = true := by
          simp [PhoneNormalizer.succeeds, hn, hc]
        rw [List.find?_cons_of_pos _ (by simp [hs])]
        simp only [PhoneNormalizer.normalize_multiple_go, hn, hc, ne_eq,
          not_false_eq_true, if_true]

/-- Claim C7: for every non-empty list of phone strings, normalize_multiple
returns the normalization of the first element that normalizes successfully
(present and not UNSURE); if no element succeeds it returns a Phone whose
raw field is the first input, with UNSURE confidence and no pretty/digits —
an explicit placeholder, never an absent result. -/
theorem normalize_multiple_first_success :
    ∀ (p0 : PyStr) (rest : List PyStr) (source : Option ExtractionStrategy),
      PhoneNormalizer.normalize_multiple (p0 :: rest) source =
        match (p0 :: rest).find? (PhoneNormalizer.succeeds source) with
        | some p => PhoneNormalizer.normalize p source
        | none =>
          some { raw := some p0, pretty := none, digits := none
                 source := source, confidence := .UNSURE } := by
  intro p0 rest source
  unfold PhoneNormalizer.normalize_multiple
  rw [normalize_multiple_go_eq]
  cases hf : (p0 :: rest).find? (PhoneNormalizer.succeeds source) with
  | none => rfl
  | some p =>
    have hs := List.find?_some hf
    cases hn : PhoneNormalizer.normalize p source with
    | none =>
      unfold PhoneNormalizer.succeeds at hs
      rw [hn] at hs
      simp at hs
    | some r => simp only [hn]

namespace UrlLib

/-- splitAll never returns an empty part list. -/
theorem splitAll_ne_nil {sep : Char} : ∀ {l : PyStr}, splitAll sep l ≠ [] := by
  intro l
  cases l with
  | nil => simp [splitAll]
  | cons c cs =>
    rw [splitAll]
    by_cases hc : c = sep
    · rw [if_pos hc]; simp
    · rw [if_neg hc]
      cases hs : splitAll sep cs <;> simp

end UrlLib

namespace UrlLib

end UrlLib

namespace UrlLib

end UrlLib

namespace UrlLib

end UrlLib

namespace URLNormalizer

end URLNormalizer

namespace UrlLib

end UrlLib

namespace UrlLib

end UrlLib

namespace UrlLib

end UrlLib

namespace Py

/-- Every character of a matched prefix occurs in the string. -/
theorem mem_of_startsWith : ∀ {p l : PyStr}, startsWith p l = true →
    ∀ c ∈ p, c ∈ l := by
  intro p
  induction p with
  | nil =>
    intro l h c hc
    cases hc
  | cons x xs ih =>
    intro l h c hc
    cases l with
    | nil => exact absurd h (by simp [startsWith])
    | cons y ys =>
      have h2 : (decide (x = y) && startsWith xs ys) = true := h
      rw [Bool.and_eq_true, decide_eq_true_eq] at h2
      obtain ⟨hxy, hsw⟩ := h2
      rcases List.mem_cons.mp hc with hcx | hcs
      · rw [hcx, hxy]
        exact List.mem_cons_self y ys
      · exact List.mem_cons_of_mem _ (ih hsw c hcs)

/-- Every character of a matched substring occurs in the string. -/
theorem mem_of_contains : ∀ {p l : PyStr}, contains p l = true →
    ∀ c ∈ p, c ∈ l := by
  intro p l
  induction l with
  | nil =>
    intro h c hc
    exact mem_of_startsWith h c hc
  | cons y ys ih =>
    intro h c hc
    have h2 : (startsWith p (y :: ys) || contains p ys) = true := h
    rw [Bool.or_eq_true] at h2
    rcases h2 with h2 | h2
    · exact mem_of_startsWith h2 c hc
    · exact List.mem_cons_of_mem _ (ih h2 c hc)

/-- A prefix match at any suffix makes the substring test succeed. -/
theorem contains_of_suffix {p : PyStr} : ∀ {s l : PyStr}, s.IsSuffix l →
    startsWith p s = true → contains p l = true := by
  intro s l
  induction l with
  | nil =>
    intro hs h
    obtain rfl := List.suffix_nil.mp hs
    exact h
  | cons y ys ih =>
    intro hs h
    rcases List.suffix_cons_iff.mp hs with hs | hs
    · show (startsWith p (y :: ys) || contains p ys) = true
      rw [← hs, h, Bool.true_or]
    · show (startsWith p (y :: ys) || contains p ys) = true
      rw [ih hs h, Bool.or_true]

/-- The substring test fails on an appended string when it fails at every
position of the left part and inside the right part. -/
theorem contains_append_false {p : PyStr} : ∀ {a b : PyStr},
    (∀ a2, a2.IsSuffix a → a2 ≠ [] → startsWith p (a2 ++ b) = false) →
    contains p b = false → contains p (a ++ b) = false := by
  intro a
  induction a with
  | nil =>
    intro b _ hb
    exact hb
  | cons x xs ih =>
    intro b h hb
    have h1 : startsWith p (x :: (xs ++ b)) = false := by
      have h0 := h (x :: xs) List.suffix_rfl (by simp)
      rwa [List.cons_append] at h0
    have h2 : contains p (xs ++ b) = false :=
      ih (fun a2 hs hne => h a2 (hs.trans (List.suffix_cons x xs)) hne) hb
    show (startsWith p (x :: (xs ++ b)) || contains p (xs ++ b)) = false
    rw [h1, h2]
    rfl

/-- replaceGo leaves a string without occurrences unchanged. -/
theorem replaceGo_eq_self {old new : PyStr} : ∀ (fuel : Nat) {l : PyStr},
    contains old l = false → replaceGo old new fuel l = l := by
  intro fuel
  induction fuel with
  | zero =>
    intro l h
    cases l <;> rfl
  | succ f ih =>
    intro l h
    cases l with
    | nil => rfl
    | cons c cs =>
      cases old with
      | nil => rfl
      | cons o os =>
        have h2 : (startsWith (o :: os) (c :: cs) ||
            contains (o :: os) cs) = false := h
        simp only [Bool.or_eq_false_iff] at h2
        obtain ⟨hsw, hcs⟩ := h2
        show (if startsWith (o :: os) (c :: cs) then
            new ++ replaceGo (o :: os) new f (cs.drop os.length)
          else c :: replaceGo (o :: os) new f cs) = c :: cs
        rw [if_neg (by simp [hsw])]
        rw [ih hcs]

/-- replace leaves a string without occurrences unchanged. -/
theorem replace_eq_self {old new l : PyStr} (h : contains old l = false) :
    replace old new l = l := replaceGo_eq_self _ h

/-- replaceGo passes over a left part that contains no match position. -/
theorem replace_go_append (old new : PyStr) (hone : old ≠ []) :
    ∀ (a : PyStr) (fuel : Nat) (b : PyStr),
    (∀ a2, a2.IsSuffix a → a2 ≠ [] → startsWith old (a2 ++ b) = false) →
    replaceGo old new (a.length + fuel) (a ++ b)
      = a ++ replaceGo old new fuel b := by
  intro a
  induction a with
  | nil =>
    intro fuel b _
    simp
  | cons x xs ih =>
    intro fuel b h
    cases old with
    | nil => exact absurd rfl hone
    | cons o os =>
      have h1 : startsWith (o :: os) (x :: (xs ++ b)) = false := by
        have h0 := h (x :: xs) List.suffix_rfl (by simp)
        rwa [List.cons_append] at h0
      have hl : (x :: xs : PyStr).length + fuel = (xs.length + fuel) + 1 := by
        rw [List.length_cons]
        omega
      rw [hl]
      show (if startsWith (o :: os) (x :: (xs ++ b)) then
          new ++ replaceGo (o :: os) new (xs.length + fuel)
            ((xs ++ b).drop os.length)
        else x :: replaceGo (o :: os) new (xs.length + fuel) (xs ++ b))
        = (x :: xs) ++ replaceGo (o :: os) new fuel b
      rw [if_neg (by simp [h1])]
      rw [ih fuel b (fun a2 hs hne => h a2 (hs.trans (List.suffix_cons x xs)) hne)]
      rw [List.cons_append]

/-- Single-character replace is a character-wise flatMap. -/
theorem replaceGo_single (o : Char) (nw : PyStr) : ∀ (l : PyStr) (fuel : Nat),
    l.length ≤ fuel →
    replaceGo [o] nw fuel l = l.flatMap fun c => if c = o then nw else [c] := by
  intro l
  induction l with
  | nil =>
    intro fuel _
    cases fuel <;> rfl
  | cons c cs ih =>
    intro fuel hf
    cases fuel with
    | zero => simp at hf
    | succ f =>
      have hlen : cs.length ≤ f := by
        have hc : (c :: cs : PyStr).length = cs.length + 1 := rfl
        omega
      show (if startsWith [o] (c :: cs) then
          nw ++ replaceGo [o] nw f (cs.drop 0)
        else c :: replaceGo [o] nw f cs)
        = (if c = o then nw else [c]) ++ cs.flatMap fun x => if x = o then nw else [x]
      by_cases hco : c = o
      · have hsw : startsWith [o] (c :: cs) = true := by
          show (decide (o = c) && startsWith [] cs) = true
          simp [hco, startsWith]
        rw [if_pos hsw, if_pos hco, List.drop_zero, ih f hlen]
      · have hsw : startsWith [o] (c :: cs) = false := by
          show (decide (o = c) && startsWith [] cs) = false
          rw [decide_eq_false (fun he => hco he.symm), Bool.false_and]
        rw [if_neg (by simp [hsw]), if_neg hco, ih f hlen]
        rw [List.singleton_append]

end Py

/-- A flatMap whose function keeps every present character is the identity. -/
theorem flatMap_eq_self {f : Char → PyStr} : ∀ {l : PyStr},
    (∀ c ∈ l, f c = [c]) → l.flatMap f = l := by
  intro l
  induction l with
  | nil =>
    intro _
    rfl
  | cons c cs ih =>
    intro h
    show f c ++ cs.flatMap f = c :: cs
    rw [h c (List.mem_cons_self c cs),
      ih fun x hx => h x (List.mem_cons_of_mem _ hx), List.singleton_append]

/-- dropWhile is the identity when the head fails the predicate. -/
theorem dropWhile_eq_self_of_head {p : Char → Bool} {l : PyStr}
    (h : (l.head?.all fun c => !p c) = true) : l.dropWhile p = l := by
  cases l with
  | nil => rfl
  | cons x xs =>
    have hx : p x = false := by simpa using h
    exact List.dropWhile_cons_of_neg (by simp [hx])

/-- strip is the identity on strings with non-whitespace ends. -/
theorem strip_eq_self {l : PyStr}
    (h1 : (l.head?.all fun c => !Py.isSpace c) = true)
    (h2 : (l.getLast?.all fun c => !Py.isSpace c) = true) : Py.strip l = l := by
  unfold Py.strip
  rw [dropWhile_eq_self_of_head h1]
  have h3 : (l.reverse.head?.all fun c => !Py.isSpace c) = true := by
    rw [List.head?_reverse]
    exact h2
  rw [dropWhile_eq_self_of_head h3, List.reverse_reverse]

/-- The head of an appended list comes from a non-empty left part. -/
theorem head?_append_left {l : PyStr} (hne : l ≠ []) (m : PyStr) :
    (l ++ m).head? = l.head? := by
  cases l with
  | nil => exact absurd rfl hne
  | cons x xs => rfl

/-- The last element of an appended list comes from a non-empty right
part. -/
theorem getLast?_append_right {m : PyStr} (l : PyStr) (hne : m ≠ []) :
    (l ++ m).getLast? = m.getLast? := by
  rw [← List.head?_reverse, List.reverse_append,
    head?_append_left (by simp [hne]), List.head?_reverse]

/-- One unfolding of the collapse loop. -/
theorem collapseSpaces_succ (fuel : Nat) (l : PyStr) :
    HoursNormalizer.collapseSpaces (fuel + 1) l
      = if Py.contains (pstr "  ") l then
          HoursNormalizer.collapseSpaces fuel (Py.replace (pstr "  ") (pstr " ") l)
        else l := rfl

/-- The collapse loop stops on a string without double spaces. -/
theorem collapseSpaces_done {l : PyStr}
    (h : Py.contains (pstr "  ") l = false) :
    ∀ fuel, HoursNormalizer.collapseSpaces fuel l = l := by
  intro fuel
  cases fuel with
  | zero => rfl
  | succ f =>
    rw [collapseSpaces_succ]
    rw [if_neg (by simp [h])]

/-- A chunk without double spaces and without a trailing space admits no
double-space match starting inside it, whatever follows. -/
theorem no_double_space_left {t1 : PyStr} (hlast1 : t1.getLast? ≠ some ' ')
    (hdd1 : Py.contains (pstr "  ") t1 = false) (b : PyStr) :
    ∀ a2, a2.IsSuffix t1 → a2 ≠ [] →
      Py.startsWith (pstr "  ") (a2 ++ b) = false := by
  intro a2 hs hne
  cases a2 with
  | nil => exact absurd rfl hne
  | cons x r =>
    cases r with
    | nil =>
      have hx : t1.getLast? = some x := by
        obtain ⟨pre, hpre⟩ := hs
        rw [← hpre]
        exact List.getLast?_concat pre
      have hxs : x ≠ ' ' := fun he => hlast1 (he ▸ hx)
      show (decide (' ' = x) && Py.startsWith [' '] b) = false
      rw [decide_eq_false fun he => hxs he.symm, Bool.false_and]
    | cons y r2 =>
      by_cases hxy : x = ' ' ∧ y = ' '
      · exfalso
        obtain ⟨hx, hy⟩ := hxy
        have hsw : Py.startsWith (pstr "  ") (x :: y :: r2) = true := by
          rw [hx, hy]
          show (decide (' ' = ' ') && (decide (' ' = ' ') &&
            Py.startsWith [] r2)) = true
          simp [Py.startsWith]
        exact absurd (Py.contains_of_suffix hs hsw) (by simp [hdd1])
      · show (decide (' ' = x) && (decide (' ' = y) &&
          Py.startsWith [] (r2 ++ b))) = false
        rcases not_and_or.mp hxy with hx | hy
        · have hdx : decide (' ' = x) = false :=
            decide_eq_false fun he => hx he.symm
          rw [hdx, Bool.false_and]
        · have hdy : decide (' ' = y) = false :=
            decide_eq_false fun he => hy he.symm
          rw [hdy, Bool.false_and, Bool.and_false]

/-- The double-space replace pass on "␣␣–␣␣t2" yields "␣–␣t2" when t2 has
no double spaces. -/
theorem replaceGo_mid (t2 : PyStr)
    (hdd2 : Py.contains (pstr "  ") t2 = false) : ∀ fuel,
    Py.replaceGo (pstr "  ") (pstr " ") (fuel + 3) (pstr "  –  " ++ t2)
      = pstr " – " ++ t2 := by
  intro fuel
  show ' ' :: '–' :: ' ' :: Py.replaceGo (pstr "  ") (pstr " ") fuel t2
    = pstr " – " ++ t2
  rw [Py.replaceGo_eq_self fuel hdd2]
  rfl

/-- normalize_time_range written out without let bindings. -/
theorem normalize_time_range_def (t : PyStr) :
    HoursNormalizer.normalize_time_range t =
      if t = [] then pstr "Closed"
      else if Py.contains (pstr "closed") (Py.lower (Py.strip t)) ||
          Py.contains (pstr "by appointment") (Py.lower (Py.strip t)) then
        pstr "Closed"
      else if Py.contains (pstr "24") (Py.lower (Py.strip t)) &&
          Py.contains (pstr "hour") (Py.lower (Py.strip t)) then
        pstr "Open 24 hours"
      else
        Py.strip (HoursNormalizer.collapseSpaces
          (Py.replace (pstr "–") (pstr " – ")
            (Py.replace (pstr "-") (pstr "–")
              (Py.replace (pstr " — ") (pstr " – ")
                (Py.replace (pstr " - ") (pstr " – ") (Py.strip t))))).length
          (Py.replace (pstr "–") (pstr " – ")
            (Py.replace (pstr "-") (pstr "–")
              (Py.replace (pstr " — ") (pstr " – ")
                (Py.replace (pstr " - ") (pstr " – ") (Py.strip t)))))) := rfl

/-- C9 counterexample: a single-space string normalizes to the empty string,
which normalizes to "Closed", so normalize_time_range is not idempotent. -/
theorem normalize_time_range_counterexample :
    HoursNormalizer.normalize_time_range (pstr " ") = [] ∧
    HoursNormalizer.normalize_time_range
        (HoursNormalizer.normalize_time_range (pstr " ")) = pstr "Closed" ∧
    HoursNormalizer.normalize_time_range
        (HoursNormalizer.normalize_time_range (pstr " "))
      ≠ HoursNormalizer.normalize_time_range (pstr " ") := by
  decide

/-- C9 (amended): normalize_time_range fixes "Closed", fixes
"Open 24 hours", and fixes every already-normalized range "t1 – t2" whose
halves are well-formed (NormalizedRange); on such inputs it is therefore
idempotent. -/
theorem normalize_time_range_normalized_fixed (t1 t2 : PyStr)
    (h : HoursNormalizer.NormalizedRange t1 t2) :
    HoursNormalizer.normalize_time_range (pstr "Closed") = pstr "Closed" ∧
    HoursNormalizer.normalize_time_range (pstr "Open 24 hours")
      = pstr "Open 24 hours" ∧
    HoursNormalizer.normalize_time_range (t1 ++ pstr " – " ++ t2)
      = t1 ++ pstr " – " ++ t2 ∧
    HoursNormalizer.normalize_time_range (HoursNormalizer.normalize_time_range
        (t1 ++ pstr " – " ++ t2))
      = HoursNormalizer.normalize_time_range (t1 ++ pstr " – " ++ t2) := by
  obtain ⟨h1ne, h2ne, hhead1, hlastw2, hlast1, hhead2, hdd1, hdd2, hhy, hen,
    hem, hcl, hba, h24⟩ := h
  have hWne : (t1 ++ pstr " – " ++ t2) ≠ [] := by
    cases t1 with
    | nil => exact absurd rfl h1ne
    | cons x xs => simp
  have hheadW : ((t1 ++ pstr " – " ++ t2).head?.all
      fun c => !Py.isSpace c) = true := by
    rw [head?_append_left (by simp [h1ne]) t2,
      head?_append_left h1ne (pstr " – ")]
    exact hhead1
  have hlastW : ((t1 ++ pstr " – " ++ t2).getLast?.all
      fun c => !Py.isSpace c) = true := by
    rw [getLast?_append_right (t1 ++ pstr " – ") h2ne]
    exact hlastw2
  have hstrip : Py.strip (t1 ++ pstr " – " ++ t2) = t1 ++ pstr " – " ++ t2 :=
    strip_eq_self hheadW hlastW
  have hfix : HoursNormalizer.normalize_time_range (t1 ++ pstr " – " ++ t2)
      = t1 ++ pstr " – " ++ t2 := by
    rw [normalize_time_range_def, if_neg hWne, hstrip]
    rw [hcl, hba, if_neg (by decide)]
    have hcond2 : (Py.contains (pstr "24")
          (Py.lower (t1 ++ pstr " – " ++ t2)) &&
        Py.contains (pstr "hour")
          (Py.lower (t1 ++ pstr " – " ++ t2))) = false := by
      rcases h24 with h24 | h24
      · rw [h24, Bool.false_and]
      · rw [h24, Bool.and_false]
    rw [hcond2, if_neg (by decide)]
    have hmemW : ∀ c : Char, c ∈ t1 ++ pstr " – " ++ t2 →
        c ∈ t1 ++ t2 ∨ c ∈ (pstr " – " : PyStr) := by
      intro c hc
      rcases List.mem_append.mp hc with hc | hc
      · rcases List.mem_append.mp hc with hc | hc
        · exact Or.inl (List.mem_append_left _ hc)
        · exact Or.inr hc
      · exact Or.inl (List.mem_append_right _ hc)
    have hhyW : ('-' : Char) ∉ t1 ++ pstr " – " ++ t2 := by
      intro hc
      rcases hmemW _ hc with hc | hc
      · exact hhy hc
      · exact absurd hc (by decide)
    have hemW : ('—' : Char) ∉ t1 ++ pstr " – " ++ t2 := by
      intro hc
      rcases hmemW _ hc with hc | hc
      · exact hem hc
      · exact absurd hc (by decide)
    have hc1 : Py.contains (pstr " - ") (t1 ++ pstr " – " ++ t2) = false := by
      cases hct : Py.contains (pstr " - ") (t1 ++ pstr " – " ++ t2) with
      | false => rfl
      | true => exact absurd (Py.mem_of_contains hct '-' (by decide)) hhyW
    have hc2 : Py.contains (pstr " — ") (t1 ++ pstr " – " ++ t2) = false := by
      cases hct : Py.contains (pstr " — ") (t1 ++ pstr " – " ++ t2) with
      | false => rfl
      | true => exact absurd (Py.mem_of_contains hct '—' (by decide)) hemW
    have hc3 : Py.contains (pstr "-") (t1 ++ pstr " – " ++ t2) = false := by
      cases hct : Py.contains (pstr "-") (t1 ++ pstr " – " ++ t2) with
      | false => rfl
      | true => exact absurd (Py.mem_of_contains hct '-' (by decide)) hhyW
    rw [Py.replace_eq_self hc1, Py.replace_eq_self hc2, Py.replace_eq_self hc3]
    have hent1 : ∀ c ∈ t1,
        (fun c => if c = '–' then pstr " – " else [c]) c = [c] := by
      intro c hc
      have hce : c ≠ '–' := fun he => hen (he ▸ List.mem_append_left _ hc)
      simp [hce]
    have hent2 : ∀ c ∈ t2,
        (fun c => if c = '–' then pstr " – " else [c]) c = [c] := by
      intro c hc
      have hce : c ≠ '–' := fun he => hen (he ▸ List.mem_append_right _ hc)
      simp [hce]
    have hmid : (pstr " – " : PyStr).flatMap
        (fun c => if c = '–' then pstr " – " else [c]) = pstr "  –  " := by
      decide
    have hflat : Py.replace (pstr "–") (pstr " – ") (t1 ++ pstr " – " ++ t2)
        = t1 ++ pstr "  –  " ++ t2 := by
      show Py.replaceGo [('–' : Char)] (pstr " – ")
        (t1 ++ pstr " – " ++ t2).length (t1 ++ pstr " – " ++ t2) = _
      rw [Py.replaceGo_single '–' (pstr " – ") _ _ (le_refl _)]
      rw [List.flatMap_append, List.flatMap_append]
      rw [flatMap_eq_self hent1, flatMap_eq_self hent2, hmid]
    rw [hflat]
    have hlen5 : (t1 ++ pstr "  –  " ++ t2).length
        = t1.length + (t2.length + 5) := by
      rw [List.length_append, List.length_append]
      rw [show (pstr "  –  " : PyStr).length = 5 from rfl]
      omega
    have hconT : Py.contains (pstr "  ") (t1 ++ pstr "  –  " ++ t2)
        = true := by
      apply Py.contains_of_suffix (s := pstr "  –  " ++ t2)
      · rw [List.append_assoc]
        exact List.suffix_append t1 _
      · rfl
    have hrep2 : Py.replace (pstr "  ") (pstr " ") (t1 ++ pstr "  –  " ++ t2)
        = t1 ++ pstr " – " ++ t2 := by
      show Py.replaceGo (pstr "  ") (pstr " ")
        (t1 ++ pstr "  –  " ++ t2).length (t1 ++ pstr "  –  " ++ t2) = _
      rw [hlen5, List.append_assoc]
      rw [Py.replace_go_append (pstr "  ") (pstr " ") (by decide) t1
        (t2.length + 5) (pstr "  –  " ++ t2)
        (no_double_space_left hlast1 hdd1 _)]
      rw [show t2.length + 5 = (t2.length + 2) + 3 from by omega]
      rw [replaceGo_mid t2 hdd2 (t2.length + 2)]
      rw [← List.append_assoc]
    have hVcon : Py.contains (pstr "  ") (t1 ++ pstr " – " ++ t2) = false := by
      rw [List.append_assoc]
      apply Py.contains_append_false (no_double_space_left hlast1 hdd1 _)
      cases t2 with
      | nil => decide
      | cons z zs =>
        have hz : decide (' ' = z) = false := by
          apply decide_eq_false
          intro he
          apply hhead2
          rw [← he]
          rfl
        show (decide (' ' = z) && true ||
          Py.contains (pstr "  ") (z :: zs)) = false
        rw [hz, Bool.false_and, Bool.false_or]
        exact hdd2
    have hcollapse : HoursNormalizer.collapseSpaces
        (t1 ++ pstr "  –  " ++ t2).length (t1 ++ pstr "  –  " ++ t2)
        = t1 ++ pstr " – " ++ t2 := by
      rw [hlen5]
      rw [show t1.length + (t2.length + 5)
        = (t1.length + t2.length + 4) + 1 from by omega]
      rw [collapseSpaces_succ, if_pos hconT, hrep2]
      exact collapseSpaces_done hVcon _
    rw [hcollapse]
    exact hstrip
  refine ⟨by decide, by decide, hfix, ?_⟩
  rw [hfix, hfix]

/-- C9 witness: the range "9:00 AM – 5:00 PM" is well-formed and fixed. -/
theorem normalize_time_range_normalized_fixed_witness :
    HoursNormalizer.NormalizedRange (pstr "9:00 AM") (pstr "5:00 PM") ∧
    HoursNormalizer.normalize_time_range
        (pstr "9:00 AM" ++ pstr " – " ++ pstr "5:00 PM")
      = pstr "9:00 AM" ++ pstr " – " ++ pstr "5:00 PM" :=
  ⟨by decide,
    (normalize_time_range_normalized_fixed (pstr "9:00 AM") (pstr "5:00 PM")
      (by decide)).2.2.1⟩
